import Mathlib

/-!
Shallow embedding of the `useeio-widgets` core (src/widget.ts and
src/calc/heatmap-result.ts) in Lean 4, together with theorems settling the
frozen claims about the repository.

JavaScript strings are modelled as `List Char`, JavaScript numbers that can
only carry integers or `NaN` (the demand year produced by `parseInt`) as an
explicit sum type `JsNum`, and matrix entries as `ℚ` (the source only ever
performs field arithmetic on them).  Fallible lookups are modelled with
`Option` / explicit bound checks, mirroring the defensive checks of the
source.
-/

set_option maxHeartbeats 1000000

namespace Useeio

/-- JavaScript strings, modelled as lists of characters. -/
abbrev Str : Type := List Char

/-- Conversion from Lean string literals to the `Str` model. -/
def str (s : String) : Str := s.data

/-- `String.prototype.split` with a one-character separator, as used by
`widget.ts` (`url.split("#")`, `pair.split("=")`, `val.split(",")`, …).
JavaScript returns `[""]` on the empty string and keeps empty segments. -/
def jsSplit (sep : Char) : Str → List Str
  | [] => [[]]
  | c :: rest =>
    match jsSplit sep rest with
    | [] => [[]]
    | a :: as => if c = sep then [] :: a :: as else (c :: a) :: as

/-- `Array.prototype.join(sep)`: concatenation with a separator between
consecutive elements; `[].join(sep) = ""`. -/
def joinWith (sep : Str) : List Str → Str
  | [] => []
  | [x] => x
  | x :: y :: xs => x ++ sep ++ joinWith sep (y :: xs)

/-- `String.prototype.trim`: drop whitespace from both ends. -/
def jsTrim (l : Str) : Str :=
  ((l.dropWhile Char.isWhitespace).reverse.dropWhile Char.isWhitespace).reverse

/-- `String.prototype.toLowerCase` (ASCII case folding). -/
def jsToLower (l : Str) : Str := l.map Char.toLower

/-- A JavaScript number holding either an integer or `NaN`; this is the
codomain of `parseInt(_, 10)` and hence the type of `Config.year`. -/
inductive JsNum where
  | nan : JsNum
  | int : ℤ → JsNum
deriving DecidableEq, Repr

/-- Decimal digits parsed most-significant first, as `parseInt` accumulates
them. -/
def parseDigits (l : Str) : ℕ :=
  l.foldl (fun a c => 10 * a + (c.toNat - 48)) 0

/-- `parseInt(val, 10)`: skip leading whitespace, read an optional sign, then
the longest prefix of decimal digits; `NaN` when there is no digit.
(JavaScript's `parseInt` never throws, so the `try { … } catch` around it in
`updateConfig` is dead code.) -/
def parseIntJS (l : Str) : JsNum :=
  let t := l.dropWhile Char.isWhitespace
  match t with
  | [] => .nan
  | c :: r =>
    let sr : ℤ × Str := if c = '-' then (-1, r) else if c = '+' then (1, r) else (1, t)
    let ds := sr.2.takeWhile Char.isDigit
    if ds = [] then .nan else .int (sr.1 * (parseDigits ds : ℤ))

/-- The character for a decimal digit value (`0 ↦ '0'`, …). -/
def digitChar (d : ℕ) : Char := Char.ofNat (48 + d)

/-- Decimal digits of `m`, least significant first; the first argument is
fuel bounding the recursion depth so that the definition is structural. -/
def natDigitsRevAux : ℕ → ℕ → List ℕ
  | 0, _ => []
  | fuel + 1, m => if m = 0 then [] else m % 10 :: natDigitsRevAux fuel (m / 10)

/-- Decimal digits of `m`, least significant first. -/
def natDigitsRev (m : ℕ) : List ℕ := natDigitsRevAux m m

/-- Decimal representation of a natural number, as `String(n)` renders it. -/
def natToStr (m : ℕ) : Str :=
  if m = 0 then ['0'] else ((natDigitsRev m).map digitChar).reverse

/-- Decimal representation of an integer, as JavaScript template literals
render `conf.year`. -/
def intToStr (n : ℤ) : Str :=
  if n < 0 then '-' :: natToStr n.natAbs else natToStr n.natAbs

namespace Webapi

/-- Modelled from the spec: the result perspective values of the external
`webapi` module (`src/webapi.ts` is not part of the sources), `"direct"`,
`"intermediate"` or `"final"`. -/
inductive ResultPerspective where
  | direct : ResultPerspective
  | intermediate : ResultPerspective
  | final : ResultPerspective
deriving DecidableEq, Repr

/-- Modelled from the spec: the demand type values of the external `webapi`
module, `"Consumption"` or `"Production"`. -/
inductive DemandType where
  | Consumption : DemandType
  | Production : DemandType
deriving DecidableEq, Repr

/-- The string value carried by a `ResultPerspective` at runtime. -/
def ResultPerspective.toStr : ResultPerspective → Str
  | .direct => str "direct"
  | .intermediate => str "intermediate"
  | .final => str "final"

/-- The string value carried by a `DemandType` at runtime. -/
def DemandType.toStr : DemandType → Str
  | .Consumption => str "Consumption"
  | .Production => str "Production"

end Webapi

open Webapi

namespace strings

/-- Modelled from the spec: `strings.eq` from `src/strings.ts` (a file that
is not among the sources; `widget.ts` imports it), case-insensitive string
equality, as the spec's table entry "`consumption`→`Consumption`, …
(case-insensitive)" requires. -/
def eq (a b : Str) : Bool := jsToLower a == jsToLower b

end strings

/-- The `Config` interface of `widget.ts`.  `source : any` is an opaque
object identity used only for echo suppression; distinct participants are
distinct JavaScript objects, so identities are modelled as distinct natural
numbers.  All fields are optional. -/
structure Config where
  source : Option ℕ := none
  model : Option Str := none
  sectors : Option (List Str) := none
  indicators : Option (List Str) := none
  perspective : Option ResultPerspective := none
  analysis : Option DemandType := none
  year : Option JsNum := none
  location : Option Str := none
deriving DecidableEq, Repr

/-- JavaScript truthiness of an optional string field (`undefined` and `""`
are falsy). -/
def truthyStr : Option Str → Bool
  | some (_ :: _) => true
  | _ => false

/-- JavaScript truthiness of the optional `year` field (`undefined`, `NaN`
and `0` are falsy). -/
def truthyYear : Option JsNum → Bool
  | some (.int n) => n != 0
  | _ => false

/-- `getPerspective` of `widget.ts`: fuzzy synonym matching on the trimmed,
lower-cased value. -/
def getPerspective (val : Str) : Option ResultPerspective :=
  if val = [] then none else
  let v := jsToLower (jsTrim val)
  if v = str "direct" ∨ v = str "direct results" ∨ v = str "supply" ∨
      v = str "supply chain" then some .direct
  else if v = str "final" ∨ v = str "final results" ∨ v = str "consumption" ∨
      v = str "final consumption" ∨ v = str "point of consumption" then some .final
  else if v = str "intermediate" ∨ v = str "intermediate results" then some .intermediate
  else none

/-- One iteration of the `for`/`switch` loop of `updateConfig` in
`widget.ts`, for a single `[key, val]` pair.  The `case` order follows the
source: `model`, `sectors`, `indicators`, `type`/`analysis`, `perspective`,
`location`, `year`, `default`.  In the `year` case, `parseInt` never throws
in JavaScript, so the `catch { delete config.year }` branch is dead and the
field is always assigned the parse result (possibly `NaN`); the missing
`break` after it only falls into the empty `default` branch. -/
def updateConfigStep (config : Config) (kv : Str × Str) : Config :=
  let key := kv.1
  let val := kv.2
  if key = str "model" then
    if truthyStr config.model then config else { config with model := some val }
  else if key = str "sectors" then
    if config.sectors.isSome then config
    else { config with sectors := some (jsSplit ',' val) }
  else if key = str "indicators" then
    if config.indicators.isSome then config
    else { config with indicators := some (jsSplit ',' val) }
  else if key = str "type" ∨ key = str "analysis" then
    if config.analysis.isSome then config
    else if strings.eq val (str "consumption") then
      { config with analysis := some .Consumption }
    else if strings.eq val (str "production") then
      { config with analysis := some .Production }
    else config
  else if key = str "perspective" then
    if config.perspective.isSome then config
    else match getPerspective val with
      | some p => { config with perspective := some p }
      | none => config
  else if key = str "location" then
    if truthyStr config.location then config else { config with location := some val }
  else if key = str "year" then
    if truthyYear config.year then config
    else { config with year := some (parseIntJS val) }
  else config

/-- `updateConfig` of `widget.ts`: fold the switch over all `[key, val]`
pairs in order. -/
def updateConfig (config : Config) (urlParams : List (Str × Str)) : Config :=
  urlParams.foldl updateConfigStep config

/-- `getParameters` of `widget.ts` (`null` and `""` yield no parameters;
pairs without a `"="` are skipped; keys are trimmed and lower-cased, values
trimmed). -/
def getParameters : Option Str → List (Str × Str)
  | none => []
  | some urlPart =>
    if urlPart = [] then [] else
    (jsSplit '&' urlPart).filterMap fun pair =>
      let keyVal := jsSplit '=' pair
      if keyVal.length < 2 then none
      else some (jsToLower (jsTrim (keyVal.getD 0 [])), jsTrim (keyVal.getD 1 []))

/-- `getHashPart` of `widget.ts`: the part after the last `"#"`, `null` when
the URL is empty or has no `"#"`. -/
def getHashPart (url : Str) : Option Str :=
  if url = [] then none else
  let parts := jsSplit '#' url
  if parts.length < 2 then none else some (parts.getLastD [])

/-- `getParameterPart` of `widget.ts`: strip the hash part, then return what
follows the first `"?"` (if any). -/
def getParameterPart (url : Str) : Option Str :=
  if url = [] then none else
  let parts := jsSplit '#' url
  let part := if parts.length > 1 then parts.getD (parts.length - 2) [] else url
  let parts2 := jsSplit '?' part
  if parts2.length < 2 then none else some (parts2.getD 1 [])

/-- `parseUrlConfig` of `widget.ts`, abstracted over the URL list
`[pageURL, script1, script2, …]` (the browser location and script tags are
external): for each URL, first its hash parameters, then its query
parameters are merged into the configuration by `updateConfig`. -/
def parseUrlConfig (urls : List Str) : Config :=
  urls.foldl
    (fun config url =>
      updateConfig (updateConfig config (getParameters (getHashPart url)))
        (getParameters (getParameterPart url)))
    {}

/-- The string rendered for `conf.year` by the template literal in
`updateHash` (only reached when the value is truthy, i.e. an integer). -/
def yearStr : JsNum → Str
  | .nan => str "NaN"
  | .int n => intToStr n

/-- `UrlConfigTransmitter.updateHash` of `widget.ts`, as the pure function
from the current configuration to the hash string that is assigned to
`window.location.hash`: `sectors`/`indicators` as comma-joined lists when
non-empty, then `type`, `perspective`, `year`, `location`, `model` when
truthy, joined with `"&"` after a leading `"#"`. -/
def updateHash (conf : Config) : Str :=
  let parts : List Str :=
    (match conf.sectors with
      | some ss => if ss.length > 0 then [str "sectors=" ++ joinWith (str ",") ss] else []
      | none => []) ++
    (match conf.indicators with
      | some is => if is.length > 0 then [str "indicators=" ++ joinWith (str ",") is] else []
      | none => []) ++
    (match conf.analysis with
      | some a => [str "type=" ++ a.toStr]
      | none => []) ++
    (match conf.perspective with
      | some p => [str "perspective=" ++ p.toStr]
      | none => []) ++
    (if truthyYear conf.year then [str "year=" ++ yearStr (conf.year.getD .nan)] else []) ++
    (if truthyStr conf.location then [str "location=" ++ conf.location.getD []] else []) ++
    (if truthyStr conf.model then [str "model=" ++ conf.model.getD []] else [])
  '#' :: joinWith (str "&") parts

/-- Decoding the hash string written by `updateHash`: parse its hash part
into a fresh configuration, exactly as `parseUrlConfig` does for the hash
part of a URL. -/
def decodeHash (s : Str) : Config :=
  updateConfig {} (getParameters (getHashPart s))

/-! ### The `Widget` base class of `widget.ts`

A widget's mutable state consists of its readiness flag, its queue of
pending update thunks (`queue.push` appends, `queue.pop` removes the last
entry) and its registered change listeners.  `this` identities are modelled
by a fixed natural number per object, and invocations of the protected
`handleUpdate` handler are made observable as the list of configurations the
call hands to it (the handler itself is an empty async stub in the base
class). -/

/-- The state of a `Widget` object: its identity and its three private
fields.  Listeners are opaque callbacks, modelled by identifiers. -/
structure Widget where
  self : ℕ
  isReady : Bool := false
  queue : List Config := []
  listeners : List ℕ := []
deriving DecidableEq, Repr

/-- `Widget.update`: no-op when the argument is `null`/`undefined` or its
`source` is this widget (`config.source === this`); while not ready, push a
thunk applying the update onto the queue; when ready, apply it at once.
Returns the new state and the configurations passed to `handleUpdate`. -/
def Widget.update (w : Widget) (config : Option Config) : Widget × List Config :=
  match config with
  | none => (w, [])
  | some c =>
    if c.source = some w.self then (w, [])
    else if !w.isReady then ({ w with queue := w.queue ++ [c] }, [])
    else (w, [c])

/-- `Widget.ready`: set the readiness flag; if the queue is non-empty, pop
its last thunk and run it (a single buffered update; earlier entries stay in
the queue but are never run again because `ready` fires only once). -/
def Widget.ready (w : Widget) : Widget × List Config :=
  let w' := { w with isReady := true }
  match w.queue.getLast? with
  | none => (w', [])
  | some c => ({ w' with queue := w.queue.dropLast }, [c])

/-- `Widget.onChanged`: register a listener. -/
def Widget.onChanged (w : Widget) (fn : ℕ) : Widget :=
  { w with listeners := w.listeners ++ [fn] }

/-! ### The heatmap result model of `calc/heatmap-result.ts`

Matrix entries are modelled as rationals.  A JavaScript read `xs[i]` outside
the bounds of `xs` yields `undefined`; the only places the model reads a
matrix are (a) guarded by explicit bound checks in `value`, and (b) the
aggregation loop, whose reads are kept in bounds by the hypotheses of the
claims about it, so unguarded reads are modelled by `getD _ 0`. -/

/-- The `Sector` objects of the external `webapi` module: `index` is the
column position (an arbitrary integer as far as the defensive accessors are
concerned), `name` may be absent (falsy), `location` is `null` for
aggregated sectors. -/
structure Sector where
  code : Str
  id : Str
  index : ℤ
  name : Str := []
  description : Str := []
  location : Option Str := none
deriving DecidableEq, Repr

/-- The `Indicator` objects of the external `webapi` module: `index` is the
row position. -/
structure Indicator where
  code : Str
  index : ℤ
  name : Str := []
deriving DecidableEq, Repr

/-- The `Result` objects of the external `webapi` module. -/
structure Result where
  data : List (List ℚ)
  totals : List ℚ
  sectors : List Str
  indicators : List Str
deriving DecidableEq, Repr

/-- The `Model` capability object consumed by `aggregateByRegions`; its two
asynchronous calls `isMultiRegional()` and `sectors()` are modelled as the
values they resolve to. -/
structure Model where
  isMultiRegional : Bool
  sectors : List Sector
deriving DecidableEq, Repr

/-- Read of `row[i]` for a (claim-hypothesis-guarded) integer index. -/
def rowGet (row : List ℚ) (i : ℤ) : ℚ :=
  if 0 ≤ i then row.getD i.toNat 0 else 0

/-- One step of the first loop of `aggregateByRegions`: if the sector's code
is not yet registered, append an aggregated `Sector` (with the next free
index, an id of `code/name` lower-cased, and `location: null`) and record
`code ↦ index`. -/
def regStep (acc : List Sector × List (Str × ℕ)) (s : Sector) :
    List Sector × List (Str × ℕ) :=
  match acc.2.lookup s.code with
  | some _ => acc
  | none =>
    let idx := acc.1.length
    let agg : Sector :=
      { code := s.code
        id := jsToLower (s.code ++ '/' :: s.name)
        index := (idx : ℤ)
        name := s.name
        description := s.description
        location := none }
    (acc.1 ++ [agg], acc.2 ++ [(s.code, idx)])

/-- The aggregated sectors and the `code ↦ aggregated index` map built by
the first loop of `aggregateByRegions` (`aggSectors` / `sectorIdx`; the
`aggSectorIds` array of the source is `aggSectors.map (·.id)`). -/
def buildAggSectors (sectors : List Sector) : List Sector × List (Str × ℕ) :=
  sectors.foldl regStep ([], [])

/-- The inner loop aggregating one result row: `aggRow[j] += row[s.index]`
for every original sector `s`, where `j = sectorIdx[s.code]` (always
registered by the first loop; the `getD 0` default is never exercised). -/
def aggRowStep (sectorIdx : List (Str × ℕ)) (row : List ℚ) (aggRow : List ℚ)
    (s : Sector) : List ℚ :=
  let j := (sectorIdx.lookup s.code).getD 0
  aggRow.set j (aggRow.getD j 0 + rowGet row s.index)

/-- `aggregateByRegions` of `calc/heatmap-result.ts`: single-regional models
pass through unchanged; otherwise columns of sectors sharing a code are
summed into a single column per distinct code, totals and indicators pass
through. -/
def aggregateByRegions (result : Result) (model : Model) : List Sector × Result :=
  if !model.isMultiRegional then (model.sectors, result) else
  let sectors := model.sectors
  let agg := buildAggSectors sectors
  let aggSectors := agg.1
  let sectorIdx := agg.2
  let data : List (List ℚ) := result.data.map fun row =>
    sectors.foldl (aggRowStep sectorIdx row) (List.replicate aggSectors.length 0)
  (aggSectors,
    { data := data
      indicators := result.indicators
      sectors := aggSectors.map (·.id)
      totals := result.totals })

/-- A `HeatmapResult` object: the two constructor arguments.  The derived
matrices `normalized` and `shares` are computed from them exactly as the
constructor does and never change afterwards. -/
structure HeatmapResult where
  sectors : List Sector
  result : Result
deriving DecidableEq, Repr

/-- The `normalized` matrix computed by the `HeatmapResult` constructor:
`result.data.map((row, i) => …)` with `total = result.totals[i]`; an entry
is `0` when the total or the entry is falsy, else `x / total`. -/
def HeatmapResult.normalized (h : HeatmapResult) : List (List ℚ) :=
  (List.range h.result.data.length).map fun i =>
    let row := h.result.data.getD i []
    let total := h.result.totals.getD i 0
    row.map fun x => if total = 0 ∨ x = 0 then 0 else x / total

/-- One row's `maxIndicatorValues` entry: `row.reduce((max, x) =>
Math.max(max, Math.abs(x)), 0)`, `0` for a missing/empty row. -/
def rowMaxAbs (row : List ℚ) : ℚ :=
  if row = [] then 0 else row.foldl (fun m x => max m |x|) 0

/-- The `maxIndicatorValues` array of the constructor. -/
def HeatmapResult.maxIndicatorValues (h : HeatmapResult) : List ℚ :=
  h.normalized.map rowMaxAbs

/-- The `shares` matrix computed by the `HeatmapResult` constructor:
`normalized.map((row, i) => …)` with `max = maxIndicatorValues[i]`; a zero
entry stays `0`, a nonzero entry is `±100` when `max === 0` (defensive
branch) and `100 * x / max` otherwise. -/
def HeatmapResult.shares (h : HeatmapResult) : List (List ℚ) :=
  (List.range h.normalized.length).map fun i =>
    let row := h.normalized.getD i []
    let m := h.maxIndicatorValues.getD i 0
    if row = [] then []
    else row.map fun x =>
      if x = 0 then 0
      else if m = 0 then (if 0 ≤ x then 100 else -100)
      else 100 * x / m

/-- `HeatmapResult.value`: the defensive matrix lookup returning `0` for a
negative or out-of-bounds row or column index. -/
def HeatmapResult.value (data : List (List ℚ)) (row column : ℤ) : ℚ :=
  if row < 0 ∨ (data.length : ℤ) ≤ row then 0 else
  let xs := data.getD row.toNat []
  if column < 0 ∨ (xs.length : ℤ) ≤ column then 0 else
  xs.getD column.toNat 0

/-- `HeatmapResult.getResult`: `0` when either argument is
`null`/`undefined`, else the defensive lookup into `result.data`. -/
def HeatmapResult.getResult (h : HeatmapResult) (indicator : Option Indicator)
    (sector : Option Sector) : ℚ :=
  match indicator, sector with
  | some i, some s => HeatmapResult.value h.result.data i.index s.index
  | _, _ => 0

/-- `HeatmapResult.getShare`: `0` when either argument is
`null`/`undefined`, else the defensive lookup into `shares`. -/
def HeatmapResult.getShare (h : HeatmapResult) (indicator : Option Indicator)
    (sector : Option Sector) : ℚ :=
  match indicator, sector with
  | some i, some s => HeatmapResult.value h.shares i.index s.index
  | _, _ => 0

/-- The trimmed, lower-cased name filter of `getRanking` (`null` when the
filter string is falsy or blank). -/
def mkFilter (nameFilter : Str) : Option Str :=
  if nameFilter ≠ [] ∧ (jsTrim nameFilter).length > 0
  then some (jsToLower (jsTrim nameFilter)) else none

/-- `HeatmapResult.matchesFilter`: every sector passes a `null` filter; a
sector with a falsy name fails; otherwise case-insensitive substring test. -/
def matchesFilter (sector : Sector) (filter : Option Str) : Bool :=
  match filter with
  | none => true
  | some f =>
    if sector.name = [] then false
    else decide (f <:+: jsToLower sector.name)

/-- `HeatmapResult.getRankingValue`: sum of the defensively-read normalized
values of the sector's column over the given indicators. -/
def HeatmapResult.getRankingValue (h : HeatmapResult) (sector : Sector)
    (indicators : List Indicator) : ℚ :=
  indicators.foldl
    (fun sum indicator =>
      sum + HeatmapResult.value h.normalized indicator.index sector.index) 0

/-- The comparator `(r1, r2) => r2[1] - r1[1]` used by `ranks.sort`, as the
"goes-before" relation of a stable sort (ECMAScript `Array.prototype.sort`
is stable): `r1` may stay before `r2` iff `r2.score ≤ r1.score`. -/
def rankLE (r1 r2 : Sector × ℚ) : Bool := r2.2 ≤ r1.2

/-- The sorted rank list built by `getRanking` before truncation: filter the
sectors, pair each with its score, and sort descending by score with a
stable sort. -/
def HeatmapResult.sortedRanks (h : HeatmapResult) (indicators : List Indicator)
    (nameFilter : Str) : List (Sector × ℚ) :=
  let filter := mkFilter nameFilter
  let ranks := (h.sectors.filter (matchesFilter · filter)).map
    fun sector => (sector, h.getRankingValue sector indicators)
  ranks.mergeSort rankLE

/-- `Array.prototype.slice(0, count)` for a possibly negative `count`: a
negative end counts from the end of the array (clamped at `0`). -/
def jsSlice0 (count : ℤ) (l : List α) : List α :=
  if count < 0 then l.take (l.length - count.natAbs) else l.take count.toNat

/-- `HeatmapResult.getRanking`: the sorted rank list truncated by
`slice(0, count)` and projected to its sectors. -/
def HeatmapResult.getRanking (h : HeatmapResult) (indicators : List Indicator)
    (count : ℤ) (nameFilter : Str) : List Sector :=
  (jsSlice0 count (h.sortedRanks indicators nameFilter)).map Prod.fst

end Useeio

namespace Useeio

-- sanity checks on the string model
example : jsSplit '&' (str "a&&b") = [str "a", str "", str "b"] := by decide
example : jsSplit '&' (str "") = [str ""] := by decide
example : joinWith (str ",") [str "a", str "b"] = str "a,b" := by decide
example : parseIntJS (str "2020") = .int 2020 := by decide
example : parseIntJS (str "abc") = .nan := by decide
example : parseIntJS (str "-5") = .int (-5) := by decide
example : intToStr 2020 = str "2020" := by decide
example : jsTrim (str "  a b ") = str "a b" := by decide

/-! ### Concrete fixtures used by witnesses and counterexamples -/

/-- A fresh widget with identity `0`. -/
def wFix : Widget := { self := 0 }

/-- A first pre-ready configuration update. -/
def cFix1 : Config := { year := some (.int 1) }

/-- A second pre-ready configuration update. -/
def cFix2 : Config := { year := some (.int 2) }

/-- A sector occupying column 0. -/
def secFix1 : Sector := { code := str "s1", id := str "s1", index := 0, name := str "Steel" }

/-- A sector occupying column 1. -/
def secFix2 : Sector := { code := str "s2", id := str "s2", index := 1, name := str "Steelworks" }

/-- A sector occupying column 2. -/
def secFix3 : Sector := { code := str "s3", id := str "s3", index := 2, name := str "Textiles" }

/-- A one-indicator, three-column result. -/
def rFix : Result := { data := [[10, 5, 20]], totals := [20], sectors := [], indicators := [] }

/-- A one-indicator result giving columns 0 and 1 equal values. -/
def rFixTie : Result := { data := [[5, 5, 1]], totals := [10], sectors := [], indicators := [] }

/-- A heatmap view over `rFix`. -/
def hFix : HeatmapResult := { sectors := [secFix1, secFix2, secFix3], result := rFix }

/-- A heatmap view over `rFixTie`, where `secFix1` and `secFix2` tie. -/
def hFixTie : HeatmapResult := { sectors := [secFix1, secFix2, secFix3], result := rFixTie }

/-- The indicator of row 0. -/
def indFix : Indicator := { code := str "i", index := 0 }

/-- Two regional copies of one sector code `A`, columns 0 and 1. -/
def mFix : Model :=
  { isMultiRegional := true
    sectors :=
      [{ code := str "A", id := str "a/us", index := 0, name := str "Steel",
          location := some (str "US") },
        { code := str "A", id := str "a/ca", index := 1, name := str "Steel",
          location := some (str "CA") }] }

/-- A one-row result over the two regional columns of `mFix`. -/
def rFixAgg : Result :=
  { data := [[10, 4]], totals := [14], sectors := [str "a/us", str "a/ca"],
    indicators := [str "i"] }

/-- A fully populated configuration whose `location` contains a `'&'`. -/
def cFixAmp : Config :=
  { source := some 7
    model := some (str "m1")
    sectors := some [str "a", str "b"]
    indicators := some [str "i1"]
    perspective := some .direct
    analysis := some .Production
    year := some (.int 2020)
    location := some (str "x&y") }

/-- A fully populated, separator-free configuration. -/
def cFixGood : Config :=
  { source := some 7
    model := some (str "m1")
    sectors := some [str "a", str "b"]
    indicators := some [str "i1"]
    perspective := some .direct
    analysis := some .Production
    year := some (.int 2020)
    location := some (str "US") }

end Useeio


/-! ## Claims -/

namespace Useeio

open Webapi

/-- C1: the claim states that a non-numeric `year` URL parameter leaves the
`year` field of the configuration unset (absent).  The code instead always
assigns `config.year = parseInt(val, 10)`, which is `NaN` for non-numeric
text, so the field is present (holding `NaN`, a falsy value); the
`catch { delete config.year }` branch that was meant to remove the field is
dead because `parseInt` never throws.  For integer text, the field is set to
the parsed integer, as claimed.  This theorem evaluates the embedded
`updateConfig` at the failing input `year=abc` and at the conforming input
`year=2020`. -/
theorem claim1_year_nan_on_nonnumeric :
    (updateConfig {} [(str "year", str "abc")]).year = some JsNum.nan ∧
    (updateConfig {} [(str "year", str "2020")]).year = some (JsNum.int 2020) := by
  constructor
  · decide
  · decide

/-- C9: `Widget.update` is a no-op (state untouched — readiness flag,
pending queue and listener list unchanged — and the update handler not
invoked) when the configuration is `null`/`undefined` or its `source` is the
widget's own identity. -/
theorem claim9_echo_suppression (w : Widget) (c : Config)
    (hsrc : c.source = some w.self) :
    Widget.update w (some c) = (w, []) ∧ Widget.update w none = (w, []) := by
  refine ⟨?_, rfl⟩
  simp [Widget.update, hsrc]

/-- C9 witness: the no-op at a concrete widget and a concrete echo
configuration. -/
theorem claim9_witness :
    Widget.update wFix (some { source := some 0 }) = (wFix, []) ∧
    Widget.update wFix none = (wFix, []) :=
  claim9_echo_suppression wFix { source := some 0 } rfl

/-- C6: two valid updates `c1` then `c2` buffered while a widget is not
ready invoke no handler; on the transition to ready, the handler is invoked
exactly once, with exactly `c2` (the most recently buffered update), and
`c1` is never applied. -/
theorem claim6_single_buffered_update (w : Widget) (c1 c2 : Config)
    (hready : w.isReady = false) (hqueue : w.queue = [])
    (h1 : c1.source ≠ some w.self) (h2 : c2.source ≠ some w.self) :
    (w.update (some c1)).2 = [] ∧
    ((w.update (some c1)).1.update (some c2)).2 = [] ∧
    ((((w.update (some c1)).1.update (some c2)).1.ready)).2 = [c2] := by
  simp [Widget.update, Widget.ready, hready, hqueue, h1, h2]

/-- C6 witness: the buffered-update coalescing at a concrete widget and two
concrete configurations. -/
theorem claim6_witness :
    (wFix.update (some cFix1)).2 = [] ∧
    ((wFix.update (some cFix1)).1.update (some cFix2)).2 = [] ∧
    ((((wFix.update (some cFix1)).1.update (some cFix2)).1.ready)).2 = [cFix2] :=
  claim6_single_buffered_update wFix cFix1 cFix2 rfl rfl (by decide) (by decide)

end Useeio

namespace Useeio

/-- C8: `getResult` and `getShare` return `0` whenever the indicator or the
sector argument is `null`/`undefined`, and whenever the resolved row index
is negative or at least the number of rows, or the resolved column index is
negative or at least the length of the addressed row, of the respective
matrix (`result.data` for `getResult`, `shares` for `getShare`); being total
functions of the embedding, they raise no error in any of these cases. -/
theorem claim8_defensive_accessors (h : HeatmapResult) (ind : Indicator) (sec : Sector) :
    h.getResult none (some sec) = 0 ∧ h.getResult (some ind) none = 0 ∧
    h.getResult none none = 0 ∧
    h.getShare none (some sec) = 0 ∧ h.getShare (some ind) none = 0 ∧
    h.getShare none none = 0 ∧
    ((ind.index < 0 ∨ (h.result.data.length : ℤ) ≤ ind.index) →
      h.getResult (some ind) (some sec) = 0) ∧
    ((sec.index < 0 ∨ ((h.result.data.getD ind.index.toNat []).length : ℤ) ≤ sec.index) →
      h.getResult (some ind) (some sec) = 0) ∧
    ((ind.index < 0 ∨ (h.shares.length : ℤ) ≤ ind.index) →
      h.getShare (some ind) (some sec) = 0) ∧
    ((sec.index < 0 ∨ ((h.shares.getD ind.index.toNat []).length : ℤ) ≤ sec.index) →
      h.getShare (some ind) (some sec) = 0) := by
  refine ⟨rfl, rfl, rfl, rfl, rfl, rfl, ?_, ?_, ?_, ?_⟩ <;> intro hb
  · show HeatmapResult.value h.result.data ind.index sec.index = 0
    rw [HeatmapResult.value, if_pos hb]
  · show HeatmapResult.value h.result.data ind.index sec.index = 0
    rw [HeatmapResult.value]
    split
    · rfl
    · rw [if_pos hb]
  · show HeatmapResult.value h.shares ind.index sec.index = 0
    rw [HeatmapResult.value, if_pos hb]
  · show HeatmapResult.value h.shares ind.index sec.index = 0
    rw [HeatmapResult.value]
    split
    · rfl
    · rw [if_pos hb]

/-- C8 witness: the defensive lookups at a concrete heatmap, an indicator
with row index `-1` and a sector with column index `7` (out of bounds for
the three-column fixture). -/
theorem claim8_witness :
    hFix.getResult none (some secFix1) = 0 ∧
    hFix.getResult (some { code := str "i", index := -1 }) none = 0 ∧
    hFix.getResult (some { code := str "i", index := -1 })
      (some { secFix1 with index := 7 }) = 0 ∧
    hFix.getResult (some indFix) (some { secFix1 with index := 7 }) = 0 ∧
    hFix.getShare (some { code := str "i", index := -1 })
      (some { secFix1 with index := 7 }) = 0 ∧
    hFix.getShare (some indFix) (some { secFix1 with index := 7 }) = 0 := by
  have Hneg := claim8_defensive_accessors hFix { code := str "i", index := -1 }
    { secFix1 with index := 7 }
  have Hcol := claim8_defensive_accessors hFix indFix { secFix1 with index := 7 }
  exact ⟨(claim8_defensive_accessors hFix indFix secFix1).1,
    Hneg.2.1,
    Hneg.2.2.2.2.2.2.1 (by decide),
    Hcol.2.2.2.2.2.2.2.1 (by decide),
    Hneg.2.2.2.2.2.2.2.2.1 (by decide),
    Hcol.2.2.2.2.2.2.2.2.2 (by right; decide)⟩

/-- C10: for a negative `count`, `getRanking` returns the ranked list with
its last `min(|count|, length)` entries removed — JavaScript
`slice(0, count)` semantics — and in particular, with at least two passing
sectors and `count = -1`, the result is non-empty. -/
theorem claim10_negative_count_slice (h : HeatmapResult) (indicators : List Indicator)
    (nameFilter : Str) (count : ℤ) (hc : count < 0) :
    h.getRanking indicators count nameFilter =
      ((h.sortedRanks indicators nameFilter).map Prod.fst).take
        ((h.sortedRanks indicators nameFilter).length -
          min count.natAbs (h.sortedRanks indicators nameFilter).length) ∧
    (2 ≤ (h.sortedRanks indicators nameFilter).length → count = -1 →
      h.getRanking indicators count nameFilter ≠ []) := by
  have hmain : h.getRanking indicators count nameFilter =
      ((h.sortedRanks indicators nameFilter).map Prod.fst).take
        ((h.sortedRanks indicators nameFilter).length -
          min count.natAbs (h.sortedRanks indicators nameFilter).length) := by
    show (jsSlice0 count (h.sortedRanks indicators nameFilter)).map Prod.fst = _
    rw [jsSlice0, if_pos hc, List.map_take]
    congr 1
    omega
  refine ⟨hmain, fun h2 hcm => ?_⟩
  rw [hmain]
  have hpos : 0 < (((h.sortedRanks indicators nameFilter).map Prod.fst).take
      ((h.sortedRanks indicators nameFilter).length -
        min count.natAbs (h.sortedRanks indicators nameFilter).length)).length := by
    rw [List.length_take, List.length_map]
    subst hcm
    simp only [Int.natAbs_neg, Int.natAbs_one]
    omega
  exact fun hnil => by rw [hnil] at hpos; exact absurd hpos (by simp)

/-- C10 witness: at the concrete three-sector fixture with `count = -1` and
an empty name filter, `getRanking` equals the ranked list with its last
entry removed and is non-empty. -/
theorem claim10_witness :
    hFix.getRanking [indFix] (-1) (str "") =
      ((hFix.sortedRanks [indFix] (str "")).map Prod.fst).take
        ((hFix.sortedRanks [indFix] (str "")).length -
          min (Int.natAbs (-1)) (hFix.sortedRanks [indFix] (str "")).length) ∧
    hFix.getRanking [indFix] (-1) (str "") ≠ [] := by
  have H := claim10_negative_count_slice hFix [indFix] (str "") (-1) (by decide)
  refine ⟨H.1, H.2 ?_ rfl⟩
  have hlen : (hFix.sortedRanks [indFix] (str "")).length = 3 := by
    simp only [HeatmapResult.sortedRanks, List.length_mergeSort, List.length_map]
    decide
  omega

end Useeio

namespace Useeio

/-- `getD` through `(List.range n).map f`. -/
theorem getD_range_map {α : Type} (n : ℕ) (f : ℕ → α) (i : ℕ) (d : α) :
    ((List.range n).map f).getD i d = if i < n then f i else d := by
  by_cases hi : i < n
  · rw [if_pos hi, List.getD_eq_getElem _ _ (by simpa using hi), List.getElem_map,
      List.getElem_range]
  · rw [if_neg hi, List.getD_eq_default _ _ (by simpa using Nat.le_of_not_lt hi)]

/-- The accumulator never decreases along the running-maximum fold of the
`maxIndicatorValues` computation. -/
theorem le_foldl_max (row : List ℚ) : ∀ a : ℚ, a ≤ row.foldl (fun m x => max m |x|) a := by
  induction row with
  | nil => intro a; exact le_refl a
  | cons x t ih =>
    intro a
    exact le_trans (le_max_left a |x|) (ih (max a |x|))

/-- Every row entry's absolute value is below the running-maximum fold. -/
theorem mem_le_foldl_max (row : List ℚ) (x : ℚ) (hx : x ∈ row) :
    ∀ a : ℚ, |x| ≤ row.foldl (fun m y => max m |y|) a := by
  induction row with
  | nil => cases hx
  | cons y t ih =>
    intro a
    rcases List.mem_cons.mp hx with h | h
    · subst h
      exact le_trans (le_max_right a |x|) (le_foldl_max t (max a |x|))
    · exact ih h (max a |y|)

/-- Every row entry's absolute value is bounded by the row maximum. -/
theorem mem_le_rowMaxAbs (row : List ℚ) (x : ℚ) (hx : x ∈ row) : |x| ≤ rowMaxAbs row := by
  rw [rowMaxAbs, if_neg (List.ne_nil_of_mem hx)]
  exact mem_le_foldl_max row x hx 0

/-- The row maximum is non-negative. -/
theorem rowMaxAbs_nonneg (row : List ℚ) : 0 ≤ rowMaxAbs row := by
  rw [rowMaxAbs]
  split
  · exact le_refl 0
  · exact le_foldl_max row 0

/-- The rows of the `normalized` matrix, through `getD`. -/
theorem normalized_getD (h : HeatmapResult) (i : ℕ) :
    h.normalized.getD i [] =
      if i < h.result.data.length then
        (h.result.data.getD i []).map (fun x =>
          if h.result.totals.getD i 0 = 0 ∨ x = 0 then 0 else x / h.result.totals.getD i 0)
      else [] := by
  rw [HeatmapResult.normalized, getD_range_map]

/-- `maxIndicatorValues` is the row maximum of the addressed `normalized`
row (also outside the matrix, where both sides are `0`). -/
theorem maxIndicatorValues_getD (h : HeatmapResult) (i : ℕ) :
    h.maxIndicatorValues.getD i 0 = rowMaxAbs (h.normalized.getD i []) := by
  rw [HeatmapResult.maxIndicatorValues]
  by_cases hi : i < h.normalized.length
  · rw [List.getD_eq_getElem _ _ (by simpa using hi), List.getElem_map,
      List.getD_eq_getElem _ _ hi]
  · rw [List.getD_eq_default _ _ (by simpa using Nat.le_of_not_lt hi),
      List.getD_eq_default _ _ (Nat.le_of_not_lt hi)]
    rw [rowMaxAbs]
    rfl

/-- The rows of the `shares` matrix, through `getD`. -/
theorem shares_getD (h : HeatmapResult) (i : ℕ) :
    h.shares.getD i [] =
      if i < h.normalized.length then
        (if h.normalized.getD i [] = [] then []
          else (h.normalized.getD i []).map (fun x =>
            if x = 0 then 0
            else if rowMaxAbs (h.normalized.getD i []) = 0 then (if 0 ≤ x then 100 else -100)
            else 100 * x / rowMaxAbs (h.normalized.getD i [])))
      else [] := by
  rw [HeatmapResult.shares, getD_range_map]
  simp only [maxIndicatorValues_getD]

end Useeio

namespace Useeio

/-- C5: for well-formed rows (every entry bounded by the row total in
absolute value whenever that total is nonzero), the constructor-computed
matrices satisfy `normalized[i][j] ∈ [-1, 1]` and `shares[i][j] ∈
[-100, 100]`; `shares[i][j] = 0` exactly when `normalized[i][j] = 0`; and
whenever the row maximum of `|normalized[i][·]|` is nonzero,
`shares[i][j] = 100 * normalized[i][j] / rowMax[i]`. -/
theorem claim5_normalization_bounds (h : HeatmapResult)
    (hwf : ∀ i, i < h.result.data.length → h.result.totals.getD i 0 ≠ 0 →
      ∀ x ∈ h.result.data.getD i [], |x| ≤ |h.result.totals.getD i 0|) :
    (∀ i : ℕ, ∀ x ∈ h.normalized.getD i [], -1 ≤ x ∧ x ≤ 1) ∧
    (∀ i : ℕ, ∀ x ∈ h.shares.getD i [], -100 ≤ x ∧ x ≤ 100) ∧
    (∀ i j : ℕ, (h.shares.getD i []).getD j 0 = 0 ↔ (h.normalized.getD i []).getD j 0 = 0) ∧
    (∀ i j : ℕ, rowMaxAbs (h.normalized.getD i []) ≠ 0 →
      (h.shares.getD i []).getD j 0 =
        100 * (h.normalized.getD i []).getD j 0 / rowMaxAbs (h.normalized.getD i [])) := by
  have hnorm : ∀ i : ℕ, ∀ x ∈ h.normalized.getD i [], -1 ≤ x ∧ x ≤ 1 := by
    intro i x hx
    rw [normalized_getD] at hx
    split at hx
    case isFalse => exact absurd hx (List.not_mem_nil x)
    case isTrue hi =>
      rcases List.mem_map.mp hx with ⟨y, hy, rfl⟩
      by_cases hz : h.result.totals.getD i 0 = 0 ∨ y = 0
      · rw [if_pos hz]
        norm_num
      · rw [if_neg hz]
        push_neg at hz
        obtain ⟨ht, _⟩ := hz
        have hb := hwf i hi ht y hy
        have h1 : |y / h.result.totals.getD i 0| ≤ 1 := by
          rw [abs_div, div_le_one (abs_pos.mpr ht)]
          exact hb
        exact abs_le.mp h1
  have hshare : ∀ i : ℕ, ∀ x ∈ h.shares.getD i [], -100 ≤ x ∧ x ≤ 100 := by
    intro i x hx
    rw [shares_getD] at hx
    split at hx
    case isFalse => exact absurd hx (List.not_mem_nil x)
    case isTrue hi =>
      split at hx
      case isTrue => exact absurd hx (List.not_mem_nil x)
      case isFalse hrow =>
        rcases List.mem_map.mp hx with ⟨y, hy, rfl⟩
        by_cases hy0 : y = 0
        · rw [if_pos hy0]
          norm_num
        · rw [if_neg hy0]
          by_cases hm0 : rowMaxAbs (h.normalized.getD i []) = 0
          · rw [if_pos hm0]
            split <;> norm_num
          · rw [if_neg hm0]
            have hmpos : 0 < rowMaxAbs (h.normalized.getD i []) :=
              lt_of_le_of_ne (rowMaxAbs_nonneg _) (Ne.symm hm0)
            have hy2 := abs_le.mp (mem_le_rowMaxAbs _ y hy)
            constructor
            · rw [le_div_iff₀ hmpos]
              linarith [hy2.1]
            · rw [div_le_iff₀ hmpos]
              linarith [hy2.2]
  have hiff : ∀ i j : ℕ,
      (h.shares.getD i []).getD j 0 = 0 ↔ (h.normalized.getD i []).getD j 0 = 0 := by
    intro i j
    rw [shares_getD]
    by_cases hi : i < h.normalized.length
    · rw [if_pos hi]
      by_cases hrow : h.normalized.getD i [] = []
      · rw [if_pos hrow, hrow]
      · rw [if_neg hrow]
        by_cases hj : j < (h.normalized.getD i []).length
        · rw [List.getD_eq_getElem _ _ (by simpa using hj), List.getElem_map,
            List.getD_eq_getElem _ _ hj]
          by_cases hy0 : (h.normalized.getD i [])[j] = 0
          · rw [if_pos hy0, hy0]
          · rw [if_neg hy0]
            by_cases hm0 : rowMaxAbs (h.normalized.getD i []) = 0
            · rw [if_pos hm0]
              refine iff_of_false ?_ hy0
              by_cases hsign : 0 ≤ (h.normalized.getD i [])[j]
              · rw [if_pos hsign]
                norm_num
              · rw [if_neg hsign]
                norm_num
            · rw [if_neg hm0]
              exact iff_of_false
                (div_ne_zero (mul_ne_zero (by norm_num) hy0) hm0) hy0
        · rw [List.getD_eq_default _ _ (by simpa using Nat.le_of_not_lt hj),
            List.getD_eq_default _ _ (Nat.le_of_not_lt hj)]
    · rw [if_neg hi]
      rw [List.getD_eq_default _ _ (Nat.le_of_not_lt hi)]
  have hformula : ∀ i j : ℕ, rowMaxAbs (h.normalized.getD i []) ≠ 0 →
      (h.shares.getD i []).getD j 0 =
        100 * (h.normalized.getD i []).getD j 0 / rowMaxAbs (h.normalized.getD i []) := by
    intro i j hm0
    rw [shares_getD]
    by_cases hi : i < h.normalized.length
    · rw [if_pos hi]
      by_cases hrow : h.normalized.getD i [] = []
      · exact absurd (by rw [hrow]; simp [rowMaxAbs]) hm0
      · rw [if_neg hrow]
        by_cases hj : j < (h.normalized.getD i []).length
        · rw [List.getD_eq_getElem _ _ (by simpa using hj), List.getElem_map,
            List.getD_eq_getElem _ _ hj]
          by_cases hy0 : (h.normalized.getD i [])[j] = 0
          · rw [if_pos hy0, hy0, mul_zero, zero_div]
          · rw [if_neg hy0, if_neg hm0]
        · rw [List.getD_eq_default _ _ (by simpa using Nat.le_of_not_lt hj),
            List.getD_eq_default _ _ (Nat.le_of_not_lt hj), mul_zero, zero_div]
    · exact absurd (by rw [List.getD_eq_default _ _ (Nat.le_of_not_lt hi)]; simp [rowMaxAbs]) hm0
  exact ⟨hnorm, hshare, hiff, hformula⟩

/-- C5 witness: the bounds, the zero-correspondence and the share formula at
the concrete well-formed fixture. -/
theorem claim5_witness :
    (∀ i : ℕ, ∀ x ∈ hFix.normalized.getD i [], -1 ≤ x ∧ x ≤ 1) ∧
    (∀ i : ℕ, ∀ x ∈ hFix.shares.getD i [], -100 ≤ x ∧ x ≤ 100) ∧
    (∀ i j : ℕ, (hFix.shares.getD i []).getD j 0 = 0 ↔
      (hFix.normalized.getD i []).getD j 0 = 0) ∧
    (∀ i j : ℕ, rowMaxAbs (hFix.normalized.getD i []) ≠ 0 →
      (hFix.shares.getD i []).getD j 0 =
        100 * (hFix.normalized.getD i []).getD j 0 /
          rowMaxAbs (hFix.normalized.getD i [])) :=
  claim5_normalization_bounds hFix (by decide)

end Useeio

namespace Useeio

/-- A successful association lookup survives appending entries. -/
theorem lookup_append_some {β : Type} {l1 : List (Str × β)} (l2 : List (Str × β))
    {c : Str} {j : β} (hl : l1.lookup c = some j) : (l1 ++ l2).lookup c = some j := by
  induction l1 with
  | nil => simp [List.lookup_nil] at hl
  | cons p t ih =>
    rcases p with ⟨a, b⟩
    rw [List.lookup_cons] at hl
    rw [List.cons_append, List.lookup_cons]
    cases hca : c == a with
    | true => rw [hca] at hl; simpa using hl
    | false => rw [hca] at hl; exact ih hl

/-- A failed association lookup finds a newly appended binding of the key. -/
theorem lookup_append_self {β : Type} {l1 : List (Str × β)} {c : Str} (v : β)
    (hl : l1.lookup c = none) : (l1 ++ [(c, v)]).lookup c = some v := by
  induction l1 with
  | nil => simp [List.lookup_cons]
  | cons p t ih =>
    rcases p with ⟨a, b⟩
    rw [List.lookup_cons] at hl
    rw [List.cons_append, List.lookup_cons]
    cases hca : c == a with
    | true => rw [hca] at hl; cases hl
    | false => rw [hca] at hl; exact ih hl

/-- A looked-up value satisfies any bound satisfied by all stored values. -/
theorem lookup_lt_of_bound {l : List (Str × ℕ)} {c : Str} {j n : ℕ}
    (hb : ∀ p ∈ l, p.2 < n) (hl : l.lookup c = some j) : j < n := by
  induction l with
  | nil => simp [List.lookup_nil] at hl
  | cons p t ih =>
    rcases p with ⟨a, b⟩
    rw [List.lookup_cons] at hl
    cases hca : c == a with
    | true =>
      rw [hca] at hl
      obtain rfl := Option.some.inj hl
      exact hb (a, b) (List.mem_cons_self _ _)
    | false =>
      rw [hca] at hl
      exact ih (fun p hp => hb p (List.mem_cons_of_mem _ hp)) hl

/-- `regStep` never shrinks the aggregated sector list. -/
theorem regStep_length_mono (acc : List Sector × List (Str × ℕ)) (s : Sector) :
    acc.1.length ≤ (regStep acc s).1.length := by
  rw [regStep]
  cases acc.2.lookup s.code with
  | some j => exact le_refl _
  | none => simp

/-- `regStep` preserves the invariant that every stored index is below the
length of the aggregated sector list. -/
theorem regStep_bound (acc : List Sector × List (Str × ℕ)) (s : Sector)
    (hb : ∀ p ∈ acc.2, p.2 < acc.1.length) :
    ∀ p ∈ (regStep acc s).2, p.2 < (regStep acc s).1.length := by
  rw [regStep]
  cases acc.2.lookup s.code with
  | some j => exact hb
  | none =>
    intro p hp
    simp only [List.length_append, List.length_cons, List.length_nil]
    rcases List.mem_append.mp hp with hp | hp
    · exact Nat.lt_succ_of_lt (hb p hp)
    · rcases List.mem_singleton.mp hp with rfl
      simp

/-- `regStep` preserves successful lookups. -/
theorem regStep_lookup_stable (acc : List Sector × List (Str × ℕ)) (s : Sector)
    {c : Str} {j : ℕ} (hl : acc.2.lookup c = some j) :
    (regStep acc s).2.lookup c = some j := by
  rw [regStep]
  cases acc.2.lookup s.code with
  | some b => exact hl
  | none => exact lookup_append_some _ hl

/-- After `regStep acc s`, the code of `s` is registered. -/
theorem regStep_lookup_self (acc : List Sector × List (Str × ℕ)) (s : Sector) :
    ∃ j, (regStep acc s).2.lookup s.code = some j := by
  rw [regStep]
  cases hl : acc.2.lookup s.code with
  | some b => exact ⟨b, by rw [hl]⟩
  | none => exact ⟨acc.1.length, lookup_append_self _ hl⟩

/-- The registration fold preserves successful lookups. -/
theorem foldl_regStep_lookup_stable (L : List Sector) :
    ∀ (acc : List Sector × List (Str × ℕ)) {c : Str} {j : ℕ},
      acc.2.lookup c = some j → (L.foldl regStep acc).2.lookup c = some j := by
  induction L with
  | nil => intro acc c j hl; exact hl
  | cons s t ih => intro acc c j hl; exact ih _ (regStep_lookup_stable acc s hl)

/-- The registration fold never shrinks the aggregated sector list. -/
theorem foldl_regStep_length_mono (L : List Sector) :
    ∀ acc : List Sector × List (Str × ℕ),
      acc.1.length ≤ (L.foldl regStep acc).1.length := by
  induction L with
  | nil => intro acc; exact le_refl _
  | cons s t ih =>
    intro acc
    exact le_trans (regStep_length_mono acc s) (ih (regStep acc s))

/-- The registration fold preserves the index-bound invariant. -/
theorem foldl_regStep_bound (L : List Sector) :
    ∀ acc : List Sector × List (Str × ℕ),
      (∀ p ∈ acc.2, p.2 < acc.1.length) →
      ∀ p ∈ (L.foldl regStep acc).2, p.2 < (L.foldl regStep acc).1.length := by
  induction L with
  | nil => intro acc hb; exact hb
  | cons s t ih => intro acc hb; exact ih (regStep acc s) (regStep_bound acc s hb)

/-- After the registration fold, every processed sector's code is registered
with an index below the length of the aggregated sector list. -/
theorem foldl_regStep_registered (L : List Sector) :
    ∀ (acc : List Sector × List (Str × ℕ)),
      (∀ p ∈ acc.2, p.2 < acc.1.length) →
      ∀ s ∈ L, ∃ j, (L.foldl regStep acc).2.lookup s.code = some j ∧
        j < (L.foldl regStep acc).1.length := by
  induction L with
  | nil => intro acc _ s hs; cases hs
  | cons s0 t ih =>
    intro acc hb s hs
    rcases List.mem_cons.mp hs with rfl | hs
    · obtain ⟨j, hj⟩ := regStep_lookup_self acc s
      refine ⟨j, foldl_regStep_lookup_stable t _ hj, ?_⟩
      have hbound := foldl_regStep_bound t (regStep acc s) (regStep_bound acc s hb)
      exact lookup_lt_of_bound hbound (foldl_regStep_lookup_stable t _ hj)
    · exact ih (regStep acc s0) (regStep_bound acc s0 hb) s hs

/-- Bumping one in-bounds entry of a list by `x` bumps its sum by `x`. -/
theorem sum_set_getD_add : ∀ (l : List ℚ) (j : ℕ), j < l.length → ∀ x : ℚ,
    (l.set j (l.getD j 0 + x)).sum = l.sum + x := by
  intro l
  induction l with
  | nil => intro j hj; cases hj
  | cons a t ih =>
    intro j hj x
    cases j with
    | zero =>
      simp only [List.set_cons_zero, List.getD_cons_zero, List.sum_cons]
      ring
    | succ j =>
      simp only [List.set_cons_succ, List.getD_cons_succ, List.sum_cons]
      rw [ih j (Nat.lt_of_succ_lt_succ hj) x]
      ring

/-- The row-aggregation fold adds exactly the contributions of the processed
sectors to the accumulator's sum, provided every sector's aggregated column
index is in bounds. -/
theorem foldl_aggRowStep_sum (sectorIdx : List (Str × ℕ)) (row : List ℚ) :
    ∀ (L : List Sector) (init : List ℚ),
      (∀ s ∈ L, ((sectorIdx.lookup s.code).getD 0) < init.length) →
      (L.foldl (aggRowStep sectorIdx row) init).sum =
        init.sum + (L.map (fun s => rowGet row s.index)).sum := by
  intro L
  induction L with
  | nil => intro init _; simp
  | cons s t ih =>
    intro init hb
    have hjs : ((sectorIdx.lookup s.code).getD 0) < init.length :=
      hb s (List.mem_cons_self _ _)
    have hlen : (aggRowStep sectorIdx row init s).length = init.length := by
      rw [aggRowStep, List.length_set]
    have hsum : (aggRowStep sectorIdx row init s).sum = init.sum + rowGet row s.index := by
      rw [aggRowStep]
      exact sum_set_getD_add init _ hjs _
    rw [List.foldl_cons, ih (aggRowStep sectorIdx row init s)
      (fun s' hs' => by rw [hlen]; exact hb s' (List.mem_cons_of_mem _ hs')),
      hsum, List.map_cons, List.sum_cons]
    ring

/-- Reading all positions of a list back off by index reproduces the list. -/
theorem map_getD_range (l : List ℚ) :
    (List.range l.length).map (fun i => l.getD i 0) = l := by
  apply List.ext_getElem (by simp)
  intro n h1 h2
  rw [List.getElem_map, List.getElem_range, List.getD_eq_getElem _ _ h2]

/-- If the sector indices enumerate the columns of a row exactly once, the
summed contributions equal the row's sum. -/
theorem sum_contrib_of_perm (row : List ℚ) (L : List Sector)
    (hperm : (L.map (fun s => s.index)).Perm
      ((List.range row.length).map (fun n : ℕ => (n : ℤ)))) :
    (L.map (fun s => rowGet row s.index)).sum = row.sum := by
  have h1 : L.map (fun s => rowGet row s.index) =
      (L.map (fun s => s.index)).map (fun i => rowGet row i) := by
    rw [List.map_map]
    rfl
  have h2 := (hperm.map (fun i => rowGet row i)).sum_eq
  have h3 : (((List.range row.length).map (fun n : ℕ => (n : ℤ))).map
      (fun i => rowGet row i)) = (List.range row.length).map (fun n => row.getD n 0) := by
    rw [List.map_map]
    apply List.map_congr_left
    intro n _
    show rowGet row ((n : ℕ) : ℤ) = row.getD n 0
    rw [rowGet, if_pos (Int.ofNat_nonneg n), Int.toNat_ofNat]
  rw [h1, h2, h3, map_getD_range]

/-- C2: for a multi-regional aggregation whose model sector list's `index`
fields enumerate each column of every row of `result.data` exactly once,
the aggregation is total-preserving: for every indicator row, the sum of
the aggregated row's entries equals the sum of the original row's
entries. -/
theorem claim2_aggregation_preserves_row_sums (result : Result) (model : Model)
    (hmr : model.isMultiRegional = true)
    (hperm : ∀ row ∈ result.data,
      (model.sectors.map (fun s => s.index)).Perm
        ((List.range row.length).map (fun n : ℕ => (n : ℤ)))) :
    ∀ i : ℕ, ((aggregateByRegions result model).2.data.getD i []).sum =
      (result.data.getD i []).sum := by
  intro i
  rw [aggregateByRegions]
  simp only [hmr, Bool.not_true, Bool.false_eq_true, if_false]
  by_cases hi : i < result.data.length
  · rw [List.getD_eq_getElem _ _ (by simpa using hi), List.getElem_map,
      List.getD_eq_getElem _ _ hi]
    set row := result.data[i] with hrow
    have hmem : row ∈ result.data := List.getElem_mem hi
    have hreg := foldl_regStep_registered model.sectors ([], [])
      (by intro p hp; cases hp)
    have hb : ∀ s ∈ model.sectors,
        (((buildAggSectors model.sectors).2.lookup s.code).getD 0) <
          (List.replicate (buildAggSectors model.sectors).1.length (0 : ℚ)).length := by
      intro s hs
      obtain ⟨j, hj, hjlt⟩ := hreg s hs
      rw [List.length_replicate, buildAggSectors, hj]
      exact hjlt
    rw [foldl_aggRowStep_sum _ row model.sectors _ hb]
    rw [List.sum_replicate, smul_zero, zero_add]
    exact sum_contrib_of_perm row model.sectors (hperm row hmem)
  · rw [List.getD_eq_default _ _ (by simpa using Nat.le_of_not_lt hi),
      List.getD_eq_default _ _ (Nat.le_of_not_lt hi)]

/-- C2 witness: the two-region fixture, whose single row `[10, 4]` with one
shared sector code aggregates to `[14]`, preserves the sums of row `0` and
of the (empty) row `1`. -/
theorem claim2_witness :
    ((aggregateByRegions rFixAgg mFix).2.data.getD 0 []).sum =
      (rFixAgg.data.getD 0 []).sum ∧
    ((aggregateByRegions rFixAgg mFix).2.data.getD 1 []).sum =
      (rFixAgg.data.getD 1 []).sum :=
  ⟨claim2_aggregation_preserves_row_sums rFixAgg mFix rfl (by decide) 0,
    claim2_aggregation_preserves_row_sums rFixAgg mFix rfl (by decide) 1⟩

end Useeio

namespace Useeio

/-- The sort comparator relation is transitive. -/
theorem rankLE_trans : ∀ a b c : Sector × ℚ, rankLE a b → rankLE b c → rankLE a c := by
  intro a b c hab hbc
  simp only [rankLE, decide_eq_true_eq] at hab hbc ⊢
  exact le_trans hbc hab

/-- The sort comparator relation is total. -/
theorem rankLE_total : ∀ a b : Sector × ℚ, rankLE a b || rankLE b a := by
  intro a b
  simp only [rankLE, Bool.or_eq_true, decide_eq_true_eq]
  exact le_total b.2 a.2

/-- C7: for two sectors that pass the name filter and receive equal ranking
scores, their relative order in the list returned by `getRanking` (with a
count covering the whole list) equals their relative order in the
`HeatmapResult`'s sector list; moreover the rank list is sorted by
descending score.  Determinism is immediate since the embedding is a pure
function of its inputs. -/
theorem claim7_ranking_stability (h : HeatmapResult) (indicators : List Indicator)
    (nameFilter : Str) (count : ℤ) (s1 s2 : Sector)
    (hsub : List.Sublist [s1, s2] h.sectors)
    (hf1 : matchesFilter s1 (mkFilter nameFilter) = true)
    (hf2 : matchesFilter s2 (mkFilter nameFilter) = true)
    (hscore : h.getRankingValue s1 indicators = h.getRankingValue s2 indicators)
    (hcount : ((h.sortedRanks indicators nameFilter).length : ℤ) ≤ count) :
    List.Sublist [s1, s2] (h.getRanking indicators count nameFilter) ∧
    ((h.sortedRanks indicators nameFilter).map Prod.snd).Pairwise (· ≥ ·) ∧
    (∀ c : ℤ, ∃ k : ℕ, h.getRanking indicators c nameFilter =
      ((h.sortedRanks indicators nameFilter).map Prod.fst).take k) := by
  have hfil : List.Sublist [s1, s2]
      (h.sectors.filter (matchesFilter · (mkFilter nameFilter))) := by
    have hf := List.Sublist.filter (matchesFilter · (mkFilter nameFilter)) hsub
    simpa [List.filter, hf1, hf2] using hf
  have hpair : List.Sublist
      [(s1, h.getRankingValue s1 indicators), (s2, h.getRankingValue s2 indicators)]
      ((h.sectors.filter (matchesFilter · (mkFilter nameFilter))).map
        (fun sector => (sector, h.getRankingValue sector indicators))) := by
    have := List.Sublist.map
      (fun sector => (sector, h.getRankingValue sector indicators)) hfil
    simpa using this
  have hab : rankLE (s1, h.getRankingValue s1 indicators)
      (s2, h.getRankingValue s2 indicators) := by
    simp only [rankLE, decide_eq_true_eq]
    rw [hscore]
  have hsorted : List.Sublist
      [(s1, h.getRankingValue s1 indicators), (s2, h.getRankingValue s2 indicators)]
      (h.sortedRanks indicators nameFilter) :=
    List.pair_sublist_mergeSort rankLE_trans rankLE_total hab hpair
  have hslice : jsSlice0 count (h.sortedRanks indicators nameFilter) =
      h.sortedRanks indicators nameFilter := by
    rw [jsSlice0, if_neg (by omega)]
    apply List.take_of_length_le
    omega
  constructor
  · show List.Sublist [s1, s2] ((jsSlice0 count (h.sortedRanks indicators nameFilter)).map
      Prod.fst)
    rw [hslice]
    simpa using List.Sublist.map Prod.fst hsorted
  constructor
  · have hp := List.sorted_mergeSort rankLE_trans rankLE_total
      ((h.sectors.filter (matchesFilter · (mkFilter nameFilter))).map
        (fun sector => (sector, h.getRankingValue sector indicators)))
    apply List.Pairwise.map Prod.snd
      (fun a b (hle : rankLE a b = true) => ?_) hp
    simp only [rankLE, decide_eq_true_eq] at hle
    exact hle
  · intro c
    show ∃ k, (jsSlice0 c (h.sortedRanks indicators nameFilter)).map Prod.fst = _
    rw [jsSlice0]
    by_cases hcneg : c < 0
    · exact ⟨(h.sortedRanks indicators nameFilter).length - c.natAbs,
        by rw [if_pos hcneg, List.map_take]⟩
    · exact ⟨c.toNat, by rw [if_neg hcneg, List.map_take]⟩

/-- C7 witness: at the tie fixture with an empty indicator list (all scores
`0`, hence equal), the two sectors keep their original relative order in the
ranking, and the rank list is sorted descending. -/
theorem claim7_witness :
    List.Sublist [secFix1, secFix2] (hFixTie.getRanking [] 5 (str "")) ∧
    ((hFixTie.sortedRanks [] (str "")).map Prod.snd).Pairwise (· ≥ ·) ∧
    (∀ c : ℤ, ∃ k : ℕ, hFixTie.getRanking [] c (str "") =
      ((hFixTie.sortedRanks [] (str "")).map Prod.fst).take k) := by
  have hlen : (hFixTie.sortedRanks [] (str "")).length = 3 := by
    simp only [HeatmapResult.sortedRanks, List.length_mergeSort, List.length_map]
    decide
  exact claim7_ranking_stability hFixTie [] (str "") 5 secFix1 secFix2
    (by decide) (by decide) (by decide) rfl (by rw [hlen]; decide)

end Useeio

namespace Useeio

/-- A non-empty optional string is truthy. -/
theorem truthyStr_some {l : Str} (h : l ≠ []) : truthyStr (some l) = true := by
  cases l with
  | nil => exact absurd rfl h
  | cons c t => rfl

/-- A single `updateConfig` switch iteration never changes a field that
currently holds a truthy value. -/
theorem updateConfigStep_preserves (cfg : Config) (kv : Str × Str) :
    (truthyStr cfg.model = true → (updateConfigStep cfg kv).model = cfg.model) ∧
    (cfg.sectors.isSome = true → (updateConfigStep cfg kv).sectors = cfg.sectors) ∧
    (cfg.indicators.isSome = true → (updateConfigStep cfg kv).indicators = cfg.indicators) ∧
    (cfg.analysis.isSome = true → (updateConfigStep cfg kv).analysis = cfg.analysis) ∧
    (cfg.perspective.isSome = true → (updateConfigStep cfg kv).perspective = cfg.perspective) ∧
    (truthyYear cfg.year = true → (updateConfigStep cfg kv).year = cfg.year) ∧
    (truthyStr cfg.location = true → (updateConfigStep cfg kv).location = cfg.location) := by
  simp only [updateConfigStep]
  split_ifs <;>
    refine ⟨?_, ?_, ?_, ?_, ?_, ?_, ?_⟩ <;> intro h <;>
    (try cases hgp : getPerspective kv.2) <;> simp_all

/-- `updateConfig` never changes a field that holds a truthy value when the
parameter processing starts. -/
theorem updateConfig_preserves (params : List (Str × Str)) :
    ∀ cfg : Config,
    (truthyStr cfg.model = true → (updateConfig cfg params).model = cfg.model) ∧
    (cfg.sectors.isSome = true → (updateConfig cfg params).sectors = cfg.sectors) ∧
    (cfg.indicators.isSome = true → (updateConfig cfg params).indicators = cfg.indicators) ∧
    (cfg.analysis.isSome = true → (updateConfig cfg params).analysis = cfg.analysis) ∧
    (cfg.perspective.isSome = true → (updateConfig cfg params).perspective = cfg.perspective) ∧
    (truthyYear cfg.year = true → (updateConfig cfg params).year = cfg.year) ∧
    (truthyStr cfg.location = true → (updateConfig cfg params).location = cfg.location) := by
  induction params with
  | nil =>
    intro cfg
    exact ⟨fun _ => rfl, fun _ => rfl, fun _ => rfl, fun _ => rfl, fun _ => rfl,
      fun _ => rfl, fun _ => rfl⟩
  | cons kv t ih =>
    intro cfg
    have hstep := updateConfigStep_preserves cfg kv
    have hrest := ih (updateConfigStep cfg kv)
    refine ⟨?_, ?_, ?_, ?_, ?_, ?_, ?_⟩ <;> intro h
    · have h1 := hstep.1 h
      exact (hrest.1 (by rw [h1]; exact h)).trans h1
    · have h1 := hstep.2.1 h
      exact (hrest.2.1 (by rw [h1]; exact h)).trans h1
    · have h1 := hstep.2.2.1 h
      exact (hrest.2.2.1 (by rw [h1]; exact h)).trans h1
    · have h1 := hstep.2.2.2.1 h
      exact (hrest.2.2.2.1 (by rw [h1]; exact h)).trans h1
    · have h1 := hstep.2.2.2.2.1 h
      exact (hrest.2.2.2.2.1 (by rw [h1]; exact h)).trans h1
    · have h1 := hstep.2.2.2.2.2.1 h
      exact (hrest.2.2.2.2.2.1 (by rw [h1]; exact h)).trans h1
    · have h1 := hstep.2.2.2.2.2.2 h
      exact (hrest.2.2.2.2.2.2 (by rw [h1]; exact h)).trans h1

/-- C4 counterexample: in the URL `http://x?year=5#year=0`, the hash
fragment — the first URL part processed — defines `year` (it sets it to the
integer `0`), yet the final parsed configuration holds `year = 5` from the
query string: a field already set by the first defining part was
overridden, contradicting the claim as stated. -/
theorem claim4_counterexample :
    (updateConfig {} (getParameters (getHashPart (str "http://x?year=5#year=0")))).year
      = some (JsNum.int 0) ∧
    (parseUrlConfig [str "http://x?year=5#year=0"]).year = some (JsNum.int 5) ∧
    (some (JsNum.int 0) ≠ some (JsNum.int 5)) := by
  exact ⟨by decide, by decide, by decide⟩

/-- C4 (amended): parsing processes URL parts in the order page hash, page
query, then each script URL's hash and query, and a field holding a
*truthy* value is never overridden — so each field is assigned by the first
URL part that sets it to a truthy value; a field set to a falsy value
(`year` `0` or `NaN`, an empty `model`/`location` string) may still be
overwritten by a later part.  In particular, `#year=2020` with
`?year=1995` on the same URL decodes to `year = 2020`. -/
theorem claim4_first_truthy_writer_wins (cfg : Config) (params : List (Str × Str)) :
    ((truthyStr cfg.model = true → (updateConfig cfg params).model = cfg.model) ∧
    (cfg.sectors.isSome = true → (updateConfig cfg params).sectors = cfg.sectors) ∧
    (cfg.indicators.isSome = true → (updateConfig cfg params).indicators = cfg.indicators) ∧
    (cfg.analysis.isSome = true → (updateConfig cfg params).analysis = cfg.analysis) ∧
    (cfg.perspective.isSome = true → (updateConfig cfg params).perspective = cfg.perspective) ∧
    (truthyYear cfg.year = true → (updateConfig cfg params).year = cfg.year) ∧
    (truthyStr cfg.location = true → (updateConfig cfg params).location = cfg.location)) ∧
    (parseUrlConfig [str "http://x/page?year=1995#year=2020"]).year
      = some (JsNum.int 2020) :=
  ⟨updateConfig_preserves params cfg, by decide⟩

/-- C4 witness: a fully truthy configuration survives a parameter list that
tries to overwrite its `model` and `year`, and the hash-over-query example
yields `2020`. -/
theorem claim4_witness :
    (updateConfig cFixGood [(str "model", str "zzz"), (str "year", str "7")]).model
      = cFixGood.model ∧
    (updateConfig cFixGood [(str "model", str "zzz"), (str "year", str "7")]).year
      = cFixGood.year ∧
    (parseUrlConfig [str "http://x/page?year=1995#year=2020"]).year
      = some (JsNum.int 2020) := by
  have H := claim4_first_truthy_writer_wins cFixGood
    [(str "model", str "zzz"), (str "year", str "7")]
  exact ⟨H.1.1 (by decide), H.1.2.2.2.2.2.1 (by decide), H.2⟩

end Useeio

namespace Useeio

/-- `jsSplit` always returns at least one segment. -/
theorem jsSplit_ne_nil (sep : Char) (l : Str) : jsSplit sep l ≠ [] := by
  cases l with
  | nil => simp [jsSplit]
  | cons c rest =>
    simp only [jsSplit]
    split
    · simp
    · split <;> simp

/-- Splitting a string that does not contain the separator yields the
singleton segment list. -/
theorem jsSplit_of_not_mem (sep : Char) (l : Str) (h : sep ∉ l) : jsSplit sep l = [l] := by
  induction l with
  | nil => rfl
  | cons c rest ih =>
    have hc : c ≠ sep := by
      intro hh
      exact h (by rw [hh]; exact List.mem_cons_self _ _)
    have hrest : sep ∉ rest := fun hh => h (List.mem_cons_of_mem c hh)
    simp only [jsSplit]
    rw [ih hrest]
    simp [hc]

/-- Splitting at a leading separator yields a leading empty segment. -/
theorem jsSplit_cons_sep (sep : Char) (rest : Str) :
    jsSplit sep (sep :: rest) = [] :: jsSplit sep rest := by
  simp only [jsSplit]
  cases h : jsSplit sep rest with
  | nil => exact absurd h (jsSplit_ne_nil sep rest)
  | cons a as => simp

/-- Splitting `a ++ sep :: b` with `sep ∉ a` peels off `a` as the first
segment. -/
theorem jsSplit_append_cons_sep (sep : Char) (a b : Str) (ha : sep ∉ a) :
    jsSplit sep (a ++ sep :: b) = a :: jsSplit sep b := by
  induction a with
  | nil => simpa using jsSplit_cons_sep sep b
  | cons c t ih =>
    have hc : c ≠ sep := by
      intro hh
      exact ha (by rw [hh]; exact List.mem_cons_self _ _)
    have ht : sep ∉ t := fun hh => ha (List.mem_cons_of_mem c hh)
    simp only [List.cons_append, jsSplit, List.append_eq]
    rw [ih ht]
    simp [hc]

/-- `jsSplit` is a left inverse of `joinWith` on separator-free segments. -/
theorem jsSplit_joinWith (sep : Char) (parts : List Str) (hne : parts ≠ [])
    (hsep : ∀ p ∈ parts, sep ∉ p) :
    jsSplit sep (joinWith [sep] parts) = parts := by
  induction parts with
  | nil => exact absurd rfl hne
  | cons x rest ih =>
    cases rest with
    | nil => exact jsSplit_of_not_mem sep x (hsep x (List.mem_cons_self _ _))
    | cons y rest2 =>
      have hx : sep ∉ x := hsep x (List.mem_cons_self _ _)
      have hjoin : joinWith [sep] (x :: y :: rest2) =
          x ++ sep :: joinWith [sep] (y :: rest2) := by
        rw [joinWith, List.append_assoc]
        rfl
      rw [hjoin, jsSplit_append_cons_sep sep x _ hx,
        ih (by simp) (fun p hp => hsep p (List.mem_cons_of_mem _ hp))]

/-- `dropWhile` is the identity when no element satisfies the predicate. -/
theorem dropWhile_eq_self_of_not {p : Char → Bool} {l : Str}
    (h : ∀ c ∈ l, p c = false) : l.dropWhile p = l := by
  cases l with
  | nil => rfl
  | cons c t =>
    rw [List.dropWhile_cons, h c (List.mem_cons_self c t)]
    simp

/-- `jsTrim` is the identity on whitespace-free strings. -/
theorem jsTrim_eq_self {l : Str} (h : ∀ c ∈ l, c.isWhitespace = false) : jsTrim l = l := by
  rw [jsTrim, dropWhile_eq_self_of_not h,
    dropWhile_eq_self_of_not (fun c hc => h c (List.mem_reverse.mp hc)),
    List.reverse_reverse]

/-- `takeWhile` is the identity when every element satisfies the predicate. -/
theorem takeWhile_eq_self_of_all {p : Char → Bool} {l : Str}
    (h : ∀ c ∈ l, p c = true) : l.takeWhile p = l := by
  induction l with
  | nil => rfl
  | cons c t ih =>
    rw [List.takeWhile_cons, h c (List.mem_cons_self c t)]
    simp only [if_true]
    rw [ih (fun c hc => h c (List.mem_cons_of_mem _ hc))]

/-- A character of a joined string belongs to the separator or to one of the
joined segments. -/
theorem mem_joinWith {sep : Str} {parts : List Str} {ch : Char}
    (h : ch ∈ joinWith sep parts) : ch ∈ sep ∨ ∃ p ∈ parts, ch ∈ p := by
  induction parts with
  | nil => cases h
  | cons x rest ih =>
    cases rest with
    | nil => exact Or.inr ⟨x, List.mem_cons_self _ _, h⟩
    | cons y rest2 =>
      rw [joinWith] at h
      rcases List.mem_append.mp h with h1 | h2
      · rcases List.mem_append.mp h1 with ha | hb
        · exact Or.inr ⟨x, List.mem_cons_self _ _, ha⟩
        · exact Or.inl hb
      · rcases ih h2 with hs | ⟨p, hp, hcp⟩
        · exact Or.inl hs
        · exact Or.inr ⟨p, List.mem_cons_of_mem _ hp, hcp⟩

/-- Joining a non-empty first segment yields a non-empty string. -/
theorem joinWith_cons_ne_nil {sep : Str} {x : Str} (rest : List Str) (hx : x ≠ []) :
    joinWith sep (x :: rest) ≠ [] := by
  cases rest with
  | nil => simpa [joinWith] using hx
  | cons y r => simp [joinWith, List.append_eq_nil, hx]

end Useeio

namespace Useeio

/-- Every decimal digit produced by the digit expansion is below 10. -/
theorem natDigitsRevAux_lt (fuel : ℕ) : ∀ m, ∀ d ∈ natDigitsRevAux fuel m, d < 10 := by
  induction fuel with
  | zero => intro m d hd; cases hd
  | succ f ih =>
    intro m d hd
    rw [natDigitsRevAux] at hd
    split at hd
    · cases hd
    · rcases List.mem_cons.mp hd with rfl | hd
      · exact Nat.mod_lt _ (by norm_num)
      · exact ih _ d hd

/-- Character-level facts about decimal digit characters. -/
theorem digitChar_props (d : ℕ) (hd : d < 10) :
    (digitChar d).isDigit = true ∧ (digitChar d).isWhitespace = false ∧
    digitChar d ≠ '-' ∧ digitChar d ≠ '+' ∧ digitChar d ≠ '&' ∧ digitChar d ≠ '#' ∧
    digitChar d ≠ '=' ∧ digitChar d ≠ ',' ∧ (digitChar d).toNat = 48 + d := by
  interval_cases d <;> exact ⟨by decide, by decide, by decide, by decide, by decide,
    by decide, by decide, by decide, by decide⟩

/-- The decimal representation is never empty. -/
theorem natToStr_ne_nil (m : ℕ) : natToStr m ≠ [] := by
  rw [natToStr]
  split
  · simp
  · rename_i hm
    cases m with
    | zero => exact absurd rfl hm
    | succ k =>
      rw [natDigitsRev, natDigitsRevAux, if_neg (Nat.succ_ne_zero k)]
      simp

/-- Every character of a decimal representation is a digit and none of the
URL separator characters. -/
theorem natToStr_chars (m : ℕ) : ∀ ch ∈ natToStr m,
    ch.isDigit = true ∧ ch.isWhitespace = false ∧ ch ≠ '-' ∧ ch ≠ '+' ∧
    ch ≠ '&' ∧ ch ≠ '#' ∧ ch ≠ '=' ∧ ch ≠ ',' := by
  intro ch hch
  rw [natToStr] at hch
  split at hch
  · obtain rfl := List.mem_singleton.mp hch
    exact ⟨by decide, by decide, by decide, by decide, by decide, by decide,
      by decide, by decide⟩
  · rw [List.mem_reverse] at hch
    rcases List.mem_map.mp hch with ⟨d, hd, rfl⟩
    rw [natDigitsRev] at hd
    obtain ⟨h1, h2, h3, h4, h5, h6, h7, h8, _⟩ :=
      digitChar_props d (natDigitsRevAux_lt m m d hd)
    exact ⟨h1, h2, h3, h4, h5, h6, h7, h8⟩

/-- Every character of an integer's decimal representation is
whitespace-free and none of the URL separator characters. -/
theorem intToStr_chars (n : ℤ) : ∀ ch ∈ intToStr n,
    ch.isWhitespace = false ∧ ch ≠ '&' ∧ ch ≠ '#' ∧ ch ≠ '=' ∧ ch ≠ ',' := by
  intro ch hch
  rw [intToStr] at hch
  split at hch
  · rcases List.mem_cons.mp hch with rfl | hch
    · exact ⟨by decide, by decide, by decide, by decide, by decide⟩
    · obtain ⟨_, h2, _, _, h5, h6, h7, h8⟩ := natToStr_chars _ ch hch
      exact ⟨h2, h5, h6, h7, h8⟩
  · obtain ⟨_, h2, _, _, h5, h6, h7, h8⟩ := natToStr_chars _ ch hch
    exact ⟨h2, h5, h6, h7, h8⟩

/-- Parsing a reversed digit expansion back yields the original number. -/
theorem parseDigits_digitsRev (fuel : ℕ) : ∀ m, m ≤ fuel →
    parseDigits (((natDigitsRevAux fuel m).map digitChar).reverse) = m := by
  induction fuel with
  | zero =>
    intro m hm
    obtain rfl := Nat.le_zero.mp hm
    rfl
  | succ f ih =>
    intro m hm
    rw [natDigitsRevAux]
    by_cases hm0 : m = 0
    · rw [if_pos hm0]
      simpa using hm0.symm
    · rw [if_neg hm0]
      rw [List.map_cons, List.reverse_cons]
      rw [parseDigits, List.foldl_append, List.foldl_cons, List.foldl_nil]
      have hdiv : m / 10 < m := Nat.div_lt_self (Nat.pos_of_ne_zero hm0) (by norm_num)
      have hrec := ih (m / 10) (by omega)
      rw [parseDigits] at hrec
      rw [hrec]
      have hdp := (digitChar_props (m % 10) (Nat.mod_lt _ (by norm_num))).2.2.2.2.2.2.2.2
      rw [hdp]
      omega

/-- Parsing the decimal representation of a natural number yields it back. -/
theorem parseDigits_natToStr (m : ℕ) : parseDigits (natToStr m) = m := by
  rw [natToStr]
  split
  · rename_i h
    rw [h]
    decide
  · rw [natDigitsRev]
    exact parseDigits_digitsRev m m (le_refl m)

/-- `parseInt` is a left inverse of the decimal rendering of an integer. -/
theorem parseIntJS_intToStr (n : ℤ) : parseIntJS (intToStr n) = JsNum.int n := by
  rw [intToStr]
  split
  · rename_i hn
    have hws : ('-' :: natToStr n.natAbs).dropWhile Char.isWhitespace =
        '-' :: natToStr n.natAbs := by
      rw [List.dropWhile_cons, show Char.isWhitespace '-' = false from by decide]
      simp
    simp only [parseIntJS, hws, if_true]
    rw [takeWhile_eq_self_of_all (fun c hc => (natToStr_chars _ c hc).1)]
    rw [if_neg (natToStr_ne_nil n.natAbs)]
    rw [parseDigits_natToStr]
    congr 1
    omega
  · rename_i hn
    obtain ⟨ch, rest, hcr⟩ := List.exists_cons_of_ne_nil (natToStr_ne_nil n.natAbs)
    have hchars := natToStr_chars n.natAbs
    have hch : ch ∈ natToStr n.natAbs := by
      rw [hcr]
      exact List.mem_cons_self _ _
    have hws : (natToStr n.natAbs).dropWhile Char.isWhitespace = natToStr n.natAbs :=
      dropWhile_eq_self_of_not (fun c hc => (hchars c hc).2.1)
    simp only [parseIntJS]
    rw [hws, hcr]
    simp only [if_neg (hchars ch hch).2.2.1, if_neg (hchars ch hch).2.2.2.1]
    rw [takeWhile_eq_self_of_all
      (fun c hc => (hchars c (by rw [hcr]; exact hc)).1)]
    rw [if_neg (by simp)]
    rw [show parseDigits (ch :: rest) = n.natAbs from by
      rw [← hcr]; exact parseDigits_natToStr _]
    congr 1
    omega

end Useeio

namespace Useeio

/-- A string is separator-clean when it contains no `'&'`, `'#'`, `'='` and
no whitespace — the characters through which `updateHash` output would be
re-tokenized differently by `getParameters`. -/
abbrev NoSep (l : Str) : Prop :=
  ∀ ch ∈ l, ch ≠ '&' ∧ ch ≠ '#' ∧ ch ≠ '=' ∧ ch.isWhitespace = false

/-- One `key=value` URL parameter part. -/
def mkPart (k v : Str) : Str := k ++ '=' :: v

theorem noSep_not_amp {v : Str} (h : NoSep v) : '&' ∉ v :=
  fun hm => ((h '&' hm).1) rfl

theorem noSep_not_hash {v : Str} (h : NoSep v) : '#' ∉ v :=
  fun hm => ((h '#' hm).2.1) rfl

theorem noSep_not_eq {v : Str} (h : NoSep v) : '=' ∉ v :=
  fun hm => ((h '=' hm).2.2.1) rfl

theorem noSep_ws {v : Str} (h : NoSep v) : ∀ c ∈ v, c.isWhitespace = false :=
  fun c hc => (h c hc).2.2.2

/-- A character distinct from `'='` and absent from key and value is absent
from the assembled part. -/
theorem not_mem_mkPart {x : Char} {k v : Str} (hk : x ∉ k) (hne : x ≠ '=')
    (hv : x ∉ v) : x ∉ mkPart k v := by
  rw [mkPart]
  intro hx
  rcases List.mem_append.mp hx with h | h
  · exact hk h
  · rcases List.mem_cons.mp h with rfl | h
    · exact hne rfl
    · exact hv h

/-- Tokenizing a list of clean `key=value` parts recovers the key/value
pairs exactly (the `filterMap` stage of `getParameters`). -/
theorem filterMap_getParam (P : List (Str × Str))
    (hkeys : ∀ kv ∈ P, NoSep kv.1 ∧ jsToLower kv.1 = kv.1)
    (hvals : ∀ kv ∈ P, NoSep kv.2) :
    (P.map (fun kv => mkPart kv.1 kv.2)).filterMap (fun pair =>
      let keyVal := jsSplit '=' pair
      if keyVal.length < 2 then none
      else some (jsToLower (jsTrim (keyVal.getD 0 [])), jsTrim (keyVal.getD 1 []))) = P := by
  induction P with
  | nil => rfl
  | cons kv t ih =>
    rw [List.map_cons, List.filterMap_cons]
    have hk := hkeys kv (List.mem_cons_self _ _)
    have hv := hvals kv (List.mem_cons_self _ _)
    have hsplit : jsSplit '=' (mkPart kv.1 kv.2) = [kv.1, kv.2] := by
      rw [mkPart, jsSplit_append_cons_sep '=' _ _ (noSep_not_eq hk.1),
        jsSplit_of_not_mem '=' _ (noSep_not_eq hv)]
    simp only [hsplit, List.length_cons, List.length_nil]
    rw [if_neg (by norm_num)]
    have htrimk : jsTrim kv.1 = kv.1 := jsTrim_eq_self (noSep_ws hk.1)
    have htrimv : jsTrim kv.2 = kv.2 := jsTrim_eq_self (noSep_ws hv)
    simp only [List.getD_cons_zero, List.getD_cons_succ, htrimk, htrimv, hk.2]
    rw [ih (fun p hp => hkeys p (List.mem_cons_of_mem _ hp))
      (fun p hp => hvals p (List.mem_cons_of_mem _ hp))]

/-- `getParameters` recovers the key/value pairs from a hash body assembled
by joining clean `key=value` parts with `"&"`. -/
theorem getParameters_joinWith_mkParts (P : List (Str × Str)) (hne : P ≠ [])
    (hkeys : ∀ kv ∈ P, NoSep kv.1 ∧ jsToLower kv.1 = kv.1)
    (hvals : ∀ kv ∈ P, NoSep kv.2) :
    getParameters (some (joinWith (str "&") (P.map (fun kv => mkPart kv.1 kv.2)))) = P := by
  obtain ⟨kv0, t, rfl⟩ := List.exists_cons_of_ne_nil hne
  have hamp : str "&" = ['&'] := by decide
  have hpart0 : mkPart kv0.1 kv0.2 ≠ [] := by simp [mkPart]
  have hbody : joinWith (str "&") ((kv0 :: t).map (fun kv => mkPart kv.1 kv.2)) ≠ [] := by
    rw [List.map_cons]
    exact joinWith_cons_ne_nil _ hpart0
  rw [getParameters, if_neg hbody, hamp]
  rw [jsSplit_joinWith '&' _ (by simp) ?hclean]
  case hclean =>
    intro p hp
    rcases List.mem_map.mp hp with ⟨kv, hkv, rfl⟩
    exact not_mem_mkPart (noSep_not_amp (hkeys kv hkv).1) (by decide)
      (noSep_not_amp (hvals kv hkv))
  exact filterMap_getParam _ hkeys hvals

/-- Decoding a hash string assembled from clean `key=value` parts applies
exactly those parameters to the empty configuration. -/
theorem decodeHash_joinWith_mkParts (P : List (Str × Str)) (hne : P ≠ [])
    (hkeys : ∀ kv ∈ P, NoSep kv.1 ∧ jsToLower kv.1 = kv.1)
    (hvals : ∀ kv ∈ P, NoSep kv.2) :
    decodeHash ('#' :: joinWith (str "&") (P.map (fun kv => mkPart kv.1 kv.2))) =
      updateConfig {} P := by
  have hnohash : '#' ∉ joinWith (str "&") (P.map fun kv => mkPart kv.1 kv.2) := by
    intro hch
    rcases mem_joinWith hch with hs | ⟨p, hp, hcp⟩
    · exact (by decide : '#' ∉ str "&") hs
    · rcases List.mem_map.mp hp with ⟨kv, hkv, rfl⟩
      exact not_mem_mkPart (noSep_not_hash (hkeys kv hkv).1) (by decide)
        (noSep_not_hash (hvals kv hkv)) hcp
  rw [decodeHash]
  have hhp : getHashPart ('#' :: joinWith (str "&") (P.map fun kv => mkPart kv.1 kv.2)) =
      some (joinWith (str "&") (P.map fun kv => mkPart kv.1 kv.2)) := by
    rw [getHashPart, if_neg (by simp)]
    rw [jsSplit_cons_sep, jsSplit_of_not_mem _ _ hnohash]
    simp [List.getLastD]
  rw [hhp, getParameters_joinWith_mkParts P hne hkeys hvals]

end Useeio

namespace Useeio

open Webapi

/-- Comma-joined separator-clean codes are separator-clean. -/
theorem noSep_joinComma {codes : List Str} (h : ∀ p ∈ codes, NoSep p) :
    NoSep (joinWith (str ",") codes) := by
  intro ch hch
  rcases mem_joinWith hch with hs | ⟨p, hp, hcp⟩
  · have hc : ch = ',' := by simpa [str] using hs
    subst hc
    exact ⟨by decide, by decide, by decide, by decide⟩
  · exact h p hp ch hcp

/-- The integer rendered for the `year` field is separator-clean. -/
theorem noSep_intToStr (n : ℤ) : NoSep (intToStr n) := by
  intro ch hch
  obtain ⟨w, a1, a2, a3, _⟩ := intToStr_chars n ch hch
  exact ⟨a1, a2, a3, w⟩

/-- The `model` switch case sets an untruthy `model` field. -/
theorem step_model (cfg : Config) (v : Str) (h : truthyStr cfg.model = false) :
    updateConfigStep cfg (str "model", v) = { cfg with model := some v } := by
  simp [updateConfigStep, h]

/-- The `sectors` switch case splits the value into an unset `sectors`
field. -/
theorem step_sectors (cfg : Config) (v : Str) (h : cfg.sectors = none) :
    updateConfigStep cfg (str "sectors", v) = { cfg with sectors := some (jsSplit ',' v) } := by
  have h1 : ¬(str "sectors" = str "model") := by decide
  simp [updateConfigStep, h, h1]

/-- The `indicators` switch case splits the value into an unset `indicators`
field. -/
theorem step_indicators (cfg : Config) (v : Str) (h : cfg.indicators = none) :
    updateConfigStep cfg (str "indicators", v) =
      { cfg with indicators := some (jsSplit ',' v) } := by
  have h1 : ¬(str "indicators" = str "model") := by decide
  have h2 : ¬(str "indicators" = str "sectors") := by decide
  simp [updateConfigStep, h, h1, h2]

/-- The `type` switch case decodes a rendered demand type into an unset
`analysis` field. -/
theorem step_type (cfg : Config) (a : DemandType) (h : cfg.analysis = none) :
    updateConfigStep cfg (str "type", a.toStr) = { cfg with analysis := some a } := by
  have h1 : ¬(str "type" = str "model") := by decide
  have h2 : ¬(str "type" = str "sectors") := by decide
  have h3 : ¬(str "type" = str "indicators") := by decide
  cases a with
  | Consumption =>
    have he : strings.eq DemandType.Consumption.toStr (str "consumption") = true := by decide
    simp [updateConfigStep, h, h1, h2, h3, he]
  | Production =>
    have he1 : strings.eq DemandType.Production.toStr (str "consumption") = false := by decide
    have he2 : strings.eq DemandType.Production.toStr (str "production") = true := by decide
    simp [updateConfigStep, h, h1, h2, h3, he1, he2]

/-- The `perspective` switch case decodes a rendered perspective into an
unset `perspective` field. -/
theorem step_perspective (cfg : Config) (p : ResultPerspective)
    (h : cfg.perspective = none) :
    updateConfigStep cfg (str "perspective", p.toStr) =
      { cfg with perspective := some p } := by
  have h1 : ¬(str "perspective" = str "model") := by decide
  have h2 : ¬(str "perspective" = str "sectors") := by decide
  have h3 : ¬(str "perspective" = str "indicators") := by decide
  have h4 : ¬(str "perspective" = str "type" ∨ str "perspective" = str "analysis") := by decide
  cases p with
  | direct =>
    have hgp : getPerspective ResultPerspective.direct.toStr =
        some ResultPerspective.direct := by decide
    simp [updateConfigStep, h, h1, h2, h3, h4, hgp]
  | intermediate =>
    have hgp : getPerspective ResultPerspective.intermediate.toStr =
        some ResultPerspective.intermediate := by decide
    simp [updateConfigStep, h, h1, h2, h3, h4, hgp]
  | final =>
    have hgp : getPerspective ResultPerspective.final.toStr =
        some ResultPerspective.final := by decide
    simp [updateConfigStep, h, h1, h2, h3, h4, hgp]

/-- The `year` switch case parses the value into an untruthy `year` field. -/
theorem step_year (cfg : Config) (v : Str) (h : truthyYear cfg.year = false) :
    updateConfigStep cfg (str "year", v) = { cfg with year := some (parseIntJS v) } := by
  have h1 : ¬(str "year" = str "model") := by decide
  have h2 : ¬(str "year" = str "sectors") := by decide
  have h3 : ¬(str "year" = str "indicators") := by decide
  have h4 : ¬(str "year" = str "type" ∨ str "year" = str "analysis") := by decide
  have h5 : ¬(str "year" = str "perspective") := by decide
  have h6 : ¬(str "year" = str "location") := by decide
  simp [updateConfigStep, h, h1, h2, h3, h4, h5, h6]

/-- The `location` switch case sets an untruthy `location` field. -/
theorem step_location (cfg : Config) (v : Str) (h : truthyStr cfg.location = false) :
    updateConfigStep cfg (str "location", v) = { cfg with location := some v } := by
  have h1 : ¬(str "location" = str "model") := by decide
  have h2 : ¬(str "location" = str "sectors") := by decide
  have h3 : ¬(str "location" = str "indicators") := by decide
  have h4 : ¬(str "location" = str "type" ∨ str "location" = str "analysis") := by decide
  have h5 : ¬(str "location" = str "perspective") := by decide
  simp [updateConfigStep, h, h1, h2, h3, h4, h5]

end Useeio


namespace Useeio

open Webapi

/-- C3 counterexample: the configuration `cFixAmp` satisfies every
hypothesis of the claim as stated (its `location`, `"x&y"`, is a non-empty
string; only sector/indicator codes are required to avoid `','`, `'&'`,
`'#'`, `'='`), yet decoding the encoded hash yields `location = "x"`: the
`'&'` inside the value is re-tokenized as a parameter separator. -/
theorem claim3_counterexample :
    (decodeHash (updateHash cFixAmp)).location = some (str "x") ∧
    cFixAmp.location = some (str "x&y") ∧
    some (str "x") ≠ some (str "x&y") := by
  exact ⟨by decide, by decide, by decide⟩

/-- C3 (amended): for a configuration whose recognized fields are all
present and conforming — sector/indicator codes, `location` and `model`
free of `'&'`, `'#'`, `'='` and whitespace (codes additionally free of
`','`), canonical `analysis`/`perspective` values, a truthy integer year —
decoding the hash string produced by encoding reproduces every recognized
field, and the encoding never depends on (never includes) the transient
`source` field. -/
theorem claim3_url_roundtrip (c : Config) (ss is : List Str) (a : DemandType)
    (p : ResultPerspective) (n : ℤ) (loc mo : Str)
    (hss : c.sectors = some ss) (hss0 : ss ≠ [])
    (hssc : ∀ code ∈ ss, NoSep code ∧ ',' ∉ code)
    (his : c.indicators = some is) (his0 : is ≠ [])
    (hisc : ∀ code ∈ is, NoSep code ∧ ',' ∉ code)
    (ha : c.analysis = some a) (hp : c.perspective = some p)
    (hy : c.year = some (JsNum.int n)) (hn : n ≠ 0)
    (hloc : c.location = some loc) (hloc0 : loc ≠ []) (hlocc : NoSep loc)
    (hmo : c.model = some mo) (hmo0 : mo ≠ []) (hmoc : NoSep mo) :
    (decodeHash (updateHash c)).sectors = c.sectors ∧
    (decodeHash (updateHash c)).indicators = c.indicators ∧
    (decodeHash (updateHash c)).analysis = c.analysis ∧
    (decodeHash (updateHash c)).perspective = c.perspective ∧
    (decodeHash (updateHash c)).year = c.year ∧
    (decodeHash (updateHash c)).location = c.location ∧
    (decodeHash (updateHash c)).model = c.model ∧
    (∀ src : Option ℕ, updateHash { c with source := src } = updateHash c) := by
  set P : List (Str × Str) :=
    [(str "sectors", joinWith (str ",") ss),
      (str "indicators", joinWith (str ",") is),
      (str "type", a.toStr),
      (str "perspective", p.toStr),
      (str "year", intToStr n),
      (str "location", loc),
      (str "model", mo)] with hP
  have l1 : ss.length > 0 := List.length_pos.mpr hss0
  have l2 : is.length > 0 := List.length_pos.mpr his0
  have hty : truthyYear (some (JsNum.int n)) = true := by simp [truthyYear, hn]
  have henc : updateHash c = '#' :: joinWith (str "&") (P.map fun kv => mkPart kv.1 kv.2) := by
    rw [hP]
    simp only [updateHash, hss, his, ha, hp, hy, hloc, hmo, if_pos l1, if_pos l2, hty,
      truthyStr_some hloc0, truthyStr_some hmo0, if_true, yearStr, Option.getD_some,
      List.map_cons, List.map_nil, mkPart]
    rfl
  have hkeysP : ∀ kv ∈ P, NoSep kv.1 ∧ jsToLower kv.1 = kv.1 := by
    intro kv hkv
    rw [hP] at hkv
    simp only [List.mem_cons, List.not_mem_nil, or_false] at hkv
    rcases hkv with rfl | rfl | rfl | rfl | rfl | rfl | rfl
    · exact ⟨(by decide : NoSep (str "sectors")),
        (by decide : jsToLower (str "sectors") = str "sectors")⟩
    · exact ⟨(by decide : NoSep (str "indicators")),
        (by decide : jsToLower (str "indicators") = str "indicators")⟩
    · exact ⟨(by decide : NoSep (str "type")),
        (by decide : jsToLower (str "type") = str "type")⟩
    · exact ⟨(by decide : NoSep (str "perspective")),
        (by decide : jsToLower (str "perspective") = str "perspective")⟩
    · exact ⟨(by decide : NoSep (str "year")),
        (by decide : jsToLower (str "year") = str "year")⟩
    · exact ⟨(by decide : NoSep (str "location")),
        (by decide : jsToLower (str "location") = str "location")⟩
    · exact ⟨(by decide : NoSep (str "model")),
        (by decide : jsToLower (str "model") = str "model")⟩
  have hvalsP : ∀ kv ∈ P, NoSep kv.2 := by
    intro kv hkv
    rw [hP] at hkv
    simp only [List.mem_cons, List.not_mem_nil, or_false] at hkv
    rcases hkv with rfl | rfl | rfl | rfl | rfl | rfl | rfl
    · exact noSep_joinComma (fun q hq => (hssc q hq).1)
    · exact noSep_joinComma (fun q hq => (hisc q hq).1)
    · cases a
      · exact (by decide : NoSep DemandType.Consumption.toStr)
      · exact (by decide : NoSep DemandType.Production.toStr)
    · cases p
      · exact (by decide : NoSep ResultPerspective.direct.toStr)
      · exact (by decide : NoSep ResultPerspective.intermediate.toStr)
      · exact (by decide : NoSep ResultPerspective.final.toStr)
    · exact noSep_intToStr n
    · exact hlocc
    · exact hmoc
  have hdec : decodeHash (updateHash c) = updateConfig {} P := by
    rw [henc]
    exact decodeHash_joinWith_mkParts P (by rw [hP]; simp) hkeysP hvalsP
  have s1 : updateConfigStep {} (str "sectors", joinWith (str ",") ss) =
      { sectors := some (jsSplit ',' (joinWith (str ",") ss)) } := by
    rw [step_sectors {} _ rfl]
  have s2 : updateConfigStep { sectors := some (jsSplit ',' (joinWith (str ",") ss)) }
      (str "indicators", joinWith (str ",") is) =
      { sectors := some (jsSplit ',' (joinWith (str ",") ss)),
        indicators := some (jsSplit ',' (joinWith (str ",") is)) } := by
    rw [step_indicators { sectors := some (jsSplit ',' (joinWith (str ",") ss)) } _ rfl]
  have s3 : updateConfigStep
      { sectors := some (jsSplit ',' (joinWith (str ",") ss)),
        indicators := some (jsSplit ',' (joinWith (str ",") is)) }
      (str "type", a.toStr) =
      { sectors := some (jsSplit ',' (joinWith (str ",") ss)),
        indicators := some (jsSplit ',' (joinWith (str ",") is)),
        analysis := some a } := by
    rw [step_type
      { sectors := some (jsSplit ',' (joinWith (str ",") ss)),
        indicators := some (jsSplit ',' (joinWith (str ",") is)) } a rfl]
  have s4 : updateConfigStep
      { sectors := some (jsSplit ',' (joinWith (str ",") ss)),
        indicators := some (jsSplit ',' (joinWith (str ",") is)),
        analysis := some a }
      (str "perspective", p.toStr) =
      { sectors := some (jsSplit ',' (joinWith (str ",") ss)),
        indicators := some (jsSplit ',' (joinWith (str ",") is)),
        analysis := some a, perspective := some p } := by
    rw [step_perspective
      { sectors := some (jsSplit ',' (joinWith (str ",") ss)),
        indicators := some (jsSplit ',' (joinWith (str ",") is)),
        analysis := some a } p rfl]
  have s5 : updateConfigStep
      { sectors := some (jsSplit ',' (joinWith (str ",") ss)),
        indicators := some (jsSplit ',' (joinWith (str ",") is)),
        analysis := some a, perspective := some p }
      (str "year", intToStr n) =
      { sectors := some (jsSplit ',' (joinWith (str ",") ss)),
        indicators := some (jsSplit ',' (joinWith (str ",") is)),
        analysis := some a, perspective := some p,
        year := some (parseIntJS (intToStr n)) } := by
    rw [step_year
      { sectors := some (jsSplit ',' (joinWith (str ",") ss)),
        indicators := some (jsSplit ',' (joinWith (str ",") is)),
        analysis := some a, perspective := some p } _ rfl]
  have s6 : updateConfigStep
      { sectors := some (jsSplit ',' (joinWith (str ",") ss)),
        indicators := some (jsSplit ',' (joinWith (str ",") is)),
        analysis := some a, perspective := some p,
        year := some (parseIntJS (intToStr n)) }
      (str "location", loc) =
      { sectors := some (jsSplit ',' (joinWith (str ",") ss)),
        indicators := some (jsSplit ',' (joinWith (str ",") is)),
        analysis := some a, perspective := some p,
        year := some (parseIntJS (intToStr n)), location := some loc } := by
    rw [step_location
      { sectors := some (jsSplit ',' (joinWith (str ",") ss)),
        indicators := some (jsSplit ',' (joinWith (str ",") is)),
        analysis := some a, perspective := some p,
        year := some (parseIntJS (intToStr n)) } _ rfl]
  have s7 : updateConfigStep
      { sectors := some (jsSplit ',' (joinWith (str ",") ss)),
        indicators := some (jsSplit ',' (joinWith (str ",") is)),
        analysis := some a, perspective := some p,
        year := some (parseIntJS (intToStr n)), location := some loc }
      (str "model", mo) =
      { model := some mo,
        sectors := some (jsSplit ',' (joinWith (str ",") ss)),
        indicators := some (jsSplit ',' (joinWith (str ",") is)),
        analysis := some a, perspective := some p,
        year := some (parseIntJS (intToStr n)), location := some loc } := by
    rw [step_model
      { sectors := some (jsSplit ',' (joinWith (str ",") ss)),
        indicators := some (jsSplit ',' (joinWith (str ",") is)),
        analysis := some a, perspective := some p,
        year := some (parseIntJS (intToStr n)), location := some loc } _ rfl]
  have hupd : updateConfig {} P =
      { model := some mo,
        sectors := some (jsSplit ',' (joinWith (str ",") ss)),
        indicators := some (jsSplit ',' (joinWith (str ",") is)),
        analysis := some a, perspective := some p,
        year := some (parseIntJS (intToStr n)), location := some loc } := by
    rw [hP, updateConfig]
    simp only [List.foldl_cons, List.foldl_nil]
    rw [s1, s2, s3, s4, s5, s6, s7]
  have hcomma : str "," = [','] := by decide
  refine ⟨?_, ?_, ?_, ?_, ?_, ?_, ?_, ?_⟩
  · rw [hdec, hupd, hss, hcomma,
      jsSplit_joinWith ',' ss hss0 (fun q hq => (hssc q hq).2)]
  · rw [hdec, hupd, his, hcomma,
      jsSplit_joinWith ',' is his0 (fun q hq => (hisc q hq).2)]
  · rw [hdec, hupd, ha]
  · rw [hdec, hupd, hp]
  · rw [hdec, hupd, hy, parseIntJS_intToStr]
  · rw [hdec, hupd, hloc]
  · rw [hdec, hupd, hmo]
  · intro src
    rfl

/-- C3 witness: the fully populated, separator-free fixture round-trips
through the URL hash, and its encoding ignores the `source` field. -/
theorem claim3_witness :
    (decodeHash (updateHash cFixGood)).sectors = cFixGood.sectors ∧
    (decodeHash (updateHash cFixGood)).indicators = cFixGood.indicators ∧
    (decodeHash (updateHash cFixGood)).analysis = cFixGood.analysis ∧
    (decodeHash (updateHash cFixGood)).perspective = cFixGood.perspective ∧
    (decodeHash (updateHash cFixGood)).year = cFixGood.year ∧
    (decodeHash (updateHash cFixGood)).location = cFixGood.location ∧
    (decodeHash (updateHash cFixGood)).model = cFixGood.model ∧
    (∀ src : Option ℕ, updateHash { cFixGood with source := src } = updateHash cFixGood) :=
  claim3_url_roundtrip cFixGood [str "a", str "b"] [str "i1"] DemandType.Production
    ResultPerspective.direct 2020 (str "US") (str "m1")
    rfl (by decide) (by decide) rfl (by decide) (by decide) rfl rfl rfl (by decide)
    rfl (by decide) (by decide) rfl (by decide) (by decide)

end Useeio
